import Mathlib

set_option maxRecDepth 8192

/-!
Verification of the content-acquisition and persistence pipeline of the
bookmark-is-learned browser extension, shallowly embedded in Lean 4.

The definitions below are translated from the background service worker
(the `background.js` sources of the repository): string sanitization and
markdown assembly are modelled on `List Char` / `String`, the DOM and the
chrome.* APIs are modelled as explicit oracle state passed to the
functions that consult them, and asynchronous control flow is modelled as
pure state passing plus an explicit trace of the effects that matter to
the claims (tab creation, credential resolution, prompt building,
provider calls).
-/

/-! ### Small character and list helpers (JS string semantics) -/

/-- Whitespace as trimmed by String.prototype.trim for the ASCII range
(the inputs this pipeline trims never carry non-ASCII whitespace that
survives URL parsing). -/
def isWsChar (c : Char) : Bool := c = ' ' ∨ c = '\t' ∨ c = '\r' ∨ c = '\n'

/-- JS `.trim()` on a character list: drop whitespace from both ends
(`List.rdropWhile p l = (l.reverse.dropWhile p).reverse`). -/
def jsTrimL (l : List Char) : List Char :=
  (l.dropWhile isWsChar).rdropWhile isWsChar

/-- JS `.trim()` on a string. -/
def jsTrimS (s : String) : String := ⟨jsTrimL s.toList⟩

/-- JS `str.split(sep)` for a one-character separator, on a character
list; never returns `[]`. -/
def splitCharL (sep : Char) : List Char → List (List Char)
  | [] => [[]]
  | c :: rest =>
    if c = sep then [] :: splitCharL sep rest
    else
      match splitCharL sep rest with
      | [] => [[c]]
      | h :: t => (c :: h) :: t

/-- JS `arr.join(sep)` for a one-character separator. -/
def joinCharL (sep : Char) : List (List Char) → List Char
  | [] => []
  | [l] => l
  | l :: ls => l ++ sep :: joinCharL sep ls

/-- JS `str.split('\n')` on strings. -/
def splitNl (s : String) : List String := (splitCharL '\n' s.toList).map (fun l => ⟨l⟩)

/-- JS `arr.join('\n')` on strings. -/
def joinNl (ls : List String) : String := ⟨joinCharL '\n' (ls.map String.toList)⟩

/-- Split a list at the first occurrence of `pat`: `some (pre, post)`
with the original list equal to `pre ++ pat ++ post`, or `none` when the
pattern does not occur. -/
def breakOnSub (pat : List Char) : List Char → Option (List Char × List Char)
  | [] => if pat.isEmpty then some ([], []) else none
  | c :: rest =>
    if pat.isPrefixOf (c :: rest) then some ([], (c :: rest).drop pat.length)
    else
      match breakOnSub pat rest with
      | some (pre, post) => some (c :: pre, post)
      | none => none

/-- JS `haystack.indexOf(needle) !== -1`. -/
def strContains (s pat : String) : Bool := (breakOnSub pat.toList s.toList).isSome

/-- JS `s.slice(0, n)` on strings. -/
def jsSlice (s : String) (n : Nat) : String := ⟨s.toList.take n⟩

/-- Lowercasing character by character (`String.toLowerCase`). -/
def lowerS (s : String) : String := ⟨s.toList.map Char.toLower⟩

/-! ### URL parsing model

The source calls the platform's WHATWG `new URL(u)` parser and reads
`hostname` and `pathname`.  We model the fragment of that parser the
source relies on: an absolute `scheme://host/path` split, with the
hostname lowercased and stripped of userinfo/port, and with C0 control
characters, space and DEL percent-encoded in the path the way the
platform parser encodes them.  A string without a `scheme://` part is
malformed and yields `none` (the `new URL` call throws there). -/

/-- Uppercase hex digit for a value below 16. -/
def hexDigitU (n : Nat) : Char :=
  if n < 10 then Char.ofNat (48 + n) else Char.ofNat (55 + n)

/-- Two-digit uppercase hex rendering of a byte value. -/
def hexByteU (n : Nat) : List Char := [hexDigitU (n / 16), hexDigitU (n % 16)]

/-- Percent-encoding applied by the platform URL parser to a path
character: C0 controls, space and DEL are escaped, the rest passes. -/
def encodePathChar (c : Char) : List Char :=
  if c.toNat ≤ 32 ∨ c.toNat = 127 then '%' :: hexByteU c.toNat else [c]

structure ParsedUrl where
  protocol : String
  hostname : String
  pathname : String
deriving Repr, DecidableEq

/-- Host terminator characters: the host part of `scheme://rest` ends at
the first `/`, `\`, `?` or `#`. -/
def isHostEnd (c : Char) : Bool := c = '/' ∨ c = '\\' ∨ c = '?' ∨ c = '#'

/-- Path terminator characters: the path ends where the query or the
fragment starts. -/
def isPathEnd (c : Char) : Bool := c = '?' ∨ c = '#'

/-- The hostname of the authority component: userinfo before the last `@`
is dropped, a `:port` suffix is dropped, letters are lowercased. -/
def hostnameOf (authority : List Char) : String :=
  let afterUser := ((splitCharL '@' authority).getLast?).getD authority
  let host := afterUser.takeWhile (fun c => c ≠ ':')
  ⟨host.map Char.toLower⟩

/-- Model of `new URL(u)` restricted to what the source reads. -/
def parseUrl (url : String) : Option ParsedUrl :=
  match breakOnSub "://".toList url.toList with
  | some (scheme, rest) =>
    if scheme.isEmpty then none
    else
      let authority := rest.takeWhile (fun c => ¬ isHostEnd c)
      let afterHost := rest.dropWhile (fun c => ¬ isHostEnd c)
      let rawPath := (afterHost.takeWhile (fun c => ¬ isPathEnd c)).dropWhile (fun c => c = '/')
      if authority.isEmpty then none
      else
        some { protocol := (⟨scheme⟩ : String) ++ ":"
               hostname := hostnameOf authority
               pathname := ⟨'/' :: (rawPath.map encodePathChar).flatten⟩ }
  | none => none

/-- Allowed hostnames for background tab fetching (security whitelist),
`ALLOWED_FETCH_HOSTS` in the source. -/
def ALLOWED_FETCH_HOSTS : List String := ["x.com", "twitter.com", "mobile.twitter.com"]

/-- `isAllowedFetchUrl(url)`: parse, then exact hostname membership;
a parse failure is the caught exception branch returning false. -/
def isAllowedFetchUrl (url : String) : Bool :=
  match parseUrl url with
  | some p => ALLOWED_FETCH_HOSTS.contains p.hostname
  | none => false

/-! ### Markdown link escaping -/

/-- Character-level body of `escapeMarkdownLinkUrl`. -/
def escUrlL (l : List Char) : List Char :=
  (l.map (fun c => if c = '(' ∨ c = ')' then '%' :: hexByteU c.toNat else [c])).flatten

/-- `escapeMarkdownLinkUrl`: replace `(` and `)` with `%` plus the
uppercase hex of their char code (0x28 and 0x29). -/
def escapeMarkdownLinkUrl (url : String) : String := ⟨escUrlL url.toList⟩

/-- Character-level body of `escapeMarkdownLinkText`. -/
def escTextL (l : List Char) : List Char :=
  (l.map (fun c => if c = '[' ∨ c = ']' then ['\\', c] else [c])).flatten

/-- `escapeMarkdownLinkText`: prefix every `[` and `]` with a backslash. -/
def escapeMarkdownLinkText (text : String) : String := ⟨escTextL text.toList⟩

/-- Hex digit value of a character, 16 when it is not a hex digit. -/
def hexVal (c : Char) : Nat :=
  if '0' ≤ c ∧ c ≤ '9' then c.toNat - 48
  else if 'A' ≤ c ∧ c ≤ 'F' then c.toNat - 55
  else if 'a' ≤ c ∧ c ≤ 'f' then c.toNat - 87
  else 16

def isHexDigitCh (c : Char) : Bool := hexVal c < 16

/-- Modelled from the spec: `unescapeConceptually` for URLs is generic
percent-decoding, turning every valid `%XY` triple back into the coded
character. -/
def percentDecode : List Char → List Char
  | [] => []
  | c :: rest =>
    if c = '%' then
      match _h : rest with
      | h1 :: h2 :: rest2 =>
        if isHexDigitCh h1 ∧ isHexDigitCh h2 then
          Char.ofNat (hexVal h1 * 16 + hexVal h2) :: percentDecode rest2
        else '%' :: percentDecode rest
      | _ => '%' :: percentDecode rest
    else c :: percentDecode rest
termination_by l => l.length
decreasing_by all_goals (subst_vars; simp_arith)

/-- Modelled from the spec: `unescapeConceptually` for link text removes
the backslash written before each `[` or `]` (JS
`replace(/\\([[\]])/g, '$1')` semantics, left to right). -/
def removeBracketEscapes : List Char → List Char
  | [] => []
  | c :: rest =>
    if c = '\\' then
      match _h : rest with
      | d :: rest2 =>
        if d = '[' ∨ d = ']' then d :: removeBracketEscapes rest2
        else '\\' :: removeBracketEscapes rest
      | [] => ['\\']
    else c :: removeBracketEscapes rest
termination_by l => l.length
decreasing_by all_goals (subst_vars; simp_arith)

/-- Scan keeping the length of the current backslash run; every `[` or
`]` must be preceded by a run accepted by `ok`. -/
def bracketRunScan (ok : Nat → Bool) : Nat → List Char → Bool
  | _, [] => true
  | bs, c :: rest =>
    if c = '\\' then bracketRunScan ok (bs + 1) rest
    else if c = '[' ∨ c = ']' then ok bs && bracketRunScan ok 0 rest
    else bracketRunScan ok 0 rest

/-- Every `[` or `]` in the list is immediately preceded by a run of
exactly one backslash. -/
def bracketsEscapedExactlyOnce (l : List Char) : Bool :=
  bracketRunScan (fun bs => decide (bs = 1)) 0 l

/-- Every `[` or `]` in the list is immediately preceded by at least one
backslash. -/
def bracketsBackslashed (l : List Char) : Bool :=
  bracketRunScan (fun bs => decide (1 ≤ bs)) 0 l

/-! ### Data model -/

structure Metrics where
  replies : String := "0"
  retweets : String := "0"
  likes : String := "0"
  views : String := "0"
deriving Repr, DecidableEq

structure TweetData where
  text : String := ""
  cardText : String := ""
  fallbackText : String := ""
  quotedText : String := ""
  quotedAuthor : String := ""
  author : String := ""
  tweetUrl : String := ""
  url : String := ""
  metrics : Option Metrics := none
  referencedUrls : List String := []
deriving Repr, DecidableEq

structure FetchedContent where
  title : String
  body : String
deriving Repr, DecidableEq

/-- The fields of a JS `Date` the pipeline reads; `month0` is the
zero-based `getMonth()`. -/
structure JsDate where
  year : Nat
  month0 : Nat
  day : Nat
  hour : Nat
  minute : Nat
  second : Nat
deriving Repr, DecidableEq

/-- JS `String(n).padStart(2, '0')` for a natural number. -/
def pad2 (n : Nat) : String :=
  if (Nat.repr n).length < 2 then "0" ++ Nat.repr n else Nat.repr n

/-- JS `a || b` on strings (empty string is falsy). -/
def jsOr (a b : String) : String := if a = "" then b else a

/-! ### Metadata-prefix stripping (`stripArticleMetadataPrefix`) -/

/-- JS `\w`. -/
def isWordChar (c : Char) : Bool := c.isAlphanum ∨ c = '_'

/-- Regex `/^@\w+$/` on the already-trimmed line. -/
def atHandleLine (l : String) : Bool :=
  match l.toList with
  | '@' :: rest => !rest.isEmpty && rest.all isWordChar
  | _ => false

/-- Regex `/^\d{1,2}月\d{1,2}日$/`. -/
def cnDateLine (l : String) : Bool :=
  let cs := l.toList
  let ds := cs.takeWhile Char.isDigit
  let r1 := cs.dropWhile Char.isDigit
  decide (1 ≤ ds.length ∧ ds.length ≤ 2) &&
  (match r1 with
   | '月' :: r2 =>
     let ds2 := r2.takeWhile Char.isDigit
     let r3 := r2.dropWhile Char.isDigit
     decide (1 ≤ ds2.length ∧ ds2.length ≤ 2) && decide (r3 = ['日'])
   | _ => false)

def monthNames : List String :=
  ["jan", "feb", "mar", "apr", "may", "jun", "jul", "aug", "sep", "oct", "nov", "dec"]

/-- Regex `/^\d{1,2}\s+(Jan|Feb|...|Dec)/i` (a prefix match). -/
def enDateLine (l : String) : Bool :=
  let cs := l.toList
  let ds := cs.takeWhile Char.isDigit
  let r1 := cs.dropWhile Char.isDigit
  let ws := r1.takeWhile isWsChar
  let r2 := r1.dropWhile isWsChar
  decide (1 ≤ ds.length ∧ ds.length ≤ 2) && decide (1 ≤ ws.length) &&
  monthNames.any (fun m => m.toList.isPrefixOf (r2.map Char.toLower))

/-- Regex `/^(Follow|回关|关注|Edited)$/i`. -/
def followLine (l : String) : Bool :=
  decide (lowerS l = "follow") || decide (l = "回关") || decide (l = "关注") ||
  decide (lowerS l = "edited")

def isNumComma (c : Char) : Bool := c.isDigit ∨ c = ',' ∨ c = '.'

def isUnitSuffix (c : Char) : Bool :=
  c = '万' ∨ c = '亿' ∨ c = 'K' ∨ c = 'k' ∨ c = 'M' ∨ c = 'm'

/-- Regex `/^[\d,.]+[万亿KkMm]?$/`. -/
def engagementLine (l : String) : Bool :=
  match l.toList.reverse with
  | [] => false
  | last :: revInit =>
    (isNumComma last && revInit.all isNumComma) ||
    (isUnitSuffix last && !revInit.isEmpty && revInit.all isNumComma)

/-- One iteration of the scan loop: does this line match one of the
metadata patterns (after trimming)? -/
def isMetaLine (ct ca : String) (rawLine : String) : Bool :=
  let line := jsTrimS rawLine
  decide (line = "") ||
  (decide (ct ≠ "") && decide (line = ct)) ||
  (decide (ca ≠ "") && decide (line = ca)) ||
  atHandleLine line ||
  decide (line = "·") ||
  cnDateLine line ||
  enDateLine line ||
  followLine line ||
  engagementLine line

/-- The scan loop: number of leading metadata lines consumed, stopping
at the first non-matching line, at the end of the list, or when the
fuel (the 25-line scan window) runs out. -/
def metaCount (ct ca : String) : Nat → List String → Nat
  | 0, _ => 0
  | _, [] => 0
  | fuel + 1, l :: rest =>
    if isMetaLine ct ca l then metaCount ct ca fuel rest + 1 else 0

/-- `stripArticleMetadataPrefix(body, title, author)`. -/
def stripArticleMetadataPrefix (body title author : String) : String :=
  let lines := splitNl body
  let cleanAuthor := jsTrimS ((splitNl author).headD "")
  let cleanTitle := jsTrimS title
  let i := metaCount cleanTitle cleanAuthor 25 lines
  jsTrimS (joinNl (lines.drop i))

/-! ### Markdown assembly (`buildMarkdownContent`) -/

def dateStrOf (d : JsDate) : String :=
  Nat.repr d.year ++ "-" ++ pad2 (d.month0 + 1) ++ "-" ++ pad2 d.day ++ " "
    ++ pad2 d.hour ++ ":" ++ pad2 d.minute

def metricsLine (m : Metrics) : String :=
  "> **Replies**: " ++ jsOr m.replies "0" ++ " · **Retweets**: " ++ jsOr m.retweets "0"
    ++ " · **Likes**: " ++ jsOr m.likes "0" ++ " · **Views**: " ++ jsOr m.views "0"

/-- The H1 title: the article title when this is an article with a
nonempty title, else the author. -/
def mdTitleOf (ac : Option FetchedContent) (isArticle : Bool) (author : String) : String :=
  match isArticle, ac with
  | true, some c => if c.title = "" then author else c.title
  | _, _ => author

/-- The main text of the `## Original Content` section. -/
def origMainLines (td : TweetData) (ac : Option FetchedContent) (isArticle : Bool)
    (author : String) : List String :=
  match isArticle, ac with
  | true, some c =>
    (if c.title = "" then [] else ["### " ++ c.title, ""]) ++
    [ stripArticleMetadataPrefix c.body c.title author]
  | _, _ =>
    if td.text ≠ "" then [td.text]
    else if td.cardText ≠ "" then [td.cardText]
    else if td.fallbackText ≠ "" then [ stripArticleMetadataPrefix td.fallbackText "" author]
    else []

/-- The quoted body: the fully fetched quoted content when present and
nonempty, else the inline preview. -/
def quotedBodyOf (td : TweetData) (qc : Option FetchedContent) : String :=
  match qc with
  | some c => if c.body = "" then td.quotedText else c.body
  | none => td.quotedText

/-- The `## Original Content` section (modes `original` and `raw`). -/
def origSectionLines (td : TweetData) (ac qc : Option FetchedContent) (isArticle : Bool)
    (author : String) : List String :=
  ["## Original Content", ""]
  ++ origMainLines td ac isArticle author
  ++ [""]
  ++ (if quotedBodyOf td qc = "" then []
      else ["### Quoted Content (by " ++ jsOr td.quotedAuthor "unknown" ++ ")", "",
            quotedBodyOf td qc, ""])
  ++ (if ¬ isArticle ∧ td.text ≠ "" ∧ td.cardText ≠ "" then
        ["### Attached Card", "", td.cardText, ""] else [])
  ++ (if td.referencedUrls ≠ [] then
        ["### Referenced Links", ""]
        ++ td.referencedUrls.map (fun u =>
             "- [" ++ escapeMarkdownLinkText u ++ "](" ++ escapeMarkdownLinkUrl u ++ ")")
        ++ [""]
      else [])

/-- The `lines` array of `buildMarkdownContent`, before the final
`join('\n')`. -/
def buildMarkdownLines (td : TweetData) (tldr : String) (ac qc : Option FetchedContent)
    (isArticle : Bool) (mode : String) (d : JsDate) : List String :=
  let author := jsOr td.author "unknown"
  let tweetUrl := jsOr td.tweetUrl td.url
  ["# " ++ mdTitleOf ac isArticle author, ""]
  ++ ["> **Author**: " ++ author, "> **Source**: " ++ tweetUrl, "> **Date**: " ++ dateStrOf d]
  ++ (match td.metrics with | some m => [metricsLine m] | none => [])
  ++ ["", "---", ""]
  ++ (if mode ≠ "raw" then ["## TLDR", "", tldr, "", "---", ""] else [])
  ++ (if mode = "original" ∨ mode = "raw" then origSectionLines td ac qc isArticle author
      else [])

def buildMarkdownContent (td : TweetData) (tldr : String) (ac qc : Option FetchedContent)
    (isArticle : Bool) (mode : String) (d : JsDate) : String :=
  joinNl (buildMarkdownLines td tldr ac qc isArticle mode d)

/-! ### Filename assembly (`buildFileName`) -/

def isFsUnsafeChar (c : Char) : Bool :=
  c = '\\' ∨ c = '/' ∨ c = ':' ∨ c = '*' ∨ c = '?' ∨ c = '"' ∨ c = '<' ∨ c = '>' ∨ c = '|'

def isCtrlChar (c : Char) : Bool := c.toNat ≤ 31 ∨ c.toNat = 127

/-- JS `replace(/[\x00-\x1f\x7f]/g, '')`. -/
def ctrlStripL (l : List Char) : List Char := l.filter (fun c => ¬ isCtrlChar c)

/-- JS `replace(/[\\/:*?"<>|]/g, '_')`. -/
def fsReplaceL (l : List Char) : List Char := l.map (fun c => if isFsUnsafeChar c then '_' else c)

/-- JS `replace(/^\.+/, '')`. -/
def stripLeadingDots (l : List Char) : List Char := l.dropWhile (fun c => c = '.')

def isNlChar (c : Char) : Bool := c = '\n' ∨ c = '\r'

/-- JS `replace(/[\n\r]+/g, ' ')`: each maximal CR/LF run becomes one
space; the boolean says whether the previous character was in a run. -/
def nlRunsToSpace : Bool → List Char → List Char
  | _, [] => []
  | prevNl, c :: rest =>
    if isNlChar c then
      (if prevNl then nlRunsToSpace true rest else ' ' :: nlRunsToSpace true rest)
    else c :: nlRunsToSpace false rest

/-- The sanitized handle component: control strip, reserved-char
replacement, leading-dot strip, trim, cap at 30. -/
def safeHandleOf (handle : String) : List Char :=
  (jsTrimL (stripLeadingDots (fsReplaceL (ctrlStripL handle.toList)))).take 30

/-- The sanitized title before the 50-char cap. -/
def sanitizedTitleOf (title : String) : List Char :=
  jsTrimL (stripLeadingDots (fsReplaceL (ctrlStripL (nlRunsToSpace false title.toList))))

/-- JS `lastIndexOf(' ')` as an integer, `-1` when absent. -/
def lastSpaceIdx (l : List Char) : Int :=
  match l.reverse.findIdx? (fun c => c = ' ') with
  | some k => ((l.length - 1 - k : Nat) : Int)
  | none => -1

/-- The title component of the filename: sanitize, cap at 50, and when
the original title exceeded 50 characters drop a trailing partial word
if the last space sits past position 20. -/
def safeTitleOf (title : String) : List Char :=
  let s := (sanitizedTitleOf title).take 50
  if 50 < title.length then
    if 20 < lastSpaceIdx s then s.take (lastSpaceIdx s).toNat else s
  else s

def timeStampOf (d : JsDate) : String :=
  Nat.repr d.year ++ pad2 (d.month0 + 1) ++ pad2 d.day ++ "-" ++ pad2 d.hour
    ++ pad2 d.minute ++ pad2 d.second

/-- The handle extracted from the tweet URL: first path segment, else
`"unknown"`. -/
def handleOf (tweetUrl : String) : String :=
  match parseUrl tweetUrl with
  | some p =>
    match (splitCharL '/' p.pathname.toList).get? 1 with
    | some seg => if seg = [] then "unknown" else ⟨seg⟩
    | none => "unknown"
  | none => "unknown"

/-- `buildFileName(tweetData, articleContent, isArticle)` with the wall
clock passed explicitly. -/
def buildFileName (td : TweetData) (ac : Option FetchedContent) (isArticle : Bool)
    (d : JsDate) : String :=
  let handle := handleOf (jsOr td.tweetUrl td.url)
  let title :=
    match isArticle, ac with
    | true, some c =>
      if c.title = "" then jsOr td.text (jsOr td.cardText td.fallbackText) else c.title
    | _, _ => jsOr td.text (jsOr td.cardText td.fallbackText)
  let safeTitle := if safeTitleOf title = [] then "untitled".toList else safeTitleOf title
  ⟨safeHandleOf handle ++ '-' :: safeTitle ++ '-' :: (timeStampOf d).toList ++ ".md".toList⟩

/-! ### History store (`saveToHistory`, `clearHistory`) -/

def MAX_HISTORY : Nat := 200

structure HistoryEntry where
  id : String
  timestamp : Nat
  author : String
  tweetUrl : String
  tweetPreview : String
  tldr : String
  isArticle : Bool
deriving Repr, DecidableEq

/-- The preview built from the tweet text: first 120 chars plus an
ellipsis when longer. -/
def previewOf (td : TweetData) : String :=
  let src := jsOr td.text (jsOr td.cardText (jsOr td.quotedText td.fallbackText))
  if 120 < src.length then jsSlice src 120 ++ "..." else jsSlice src 120

def mkHistoryEntry (td : TweetData) (tldr : String) (isArticle : Bool) (idStr : String)
    (now : Nat) : HistoryEntry :=
  { id := idStr, timestamp := now, author := td.author, tweetUrl := jsOr td.tweetUrl td.url
    tweetPreview := previewOf td, tldr := tldr, isArticle := isArticle }

/-- `saveToHistory`: build the entry, `unshift` it onto the stored list,
truncate to `MAX_HISTORY`.  The stored list and the identifier/wall
clock are explicit arguments (they come from `chrome.storage.local` and
`Date.now()`). -/
def saveToHistory (stored : List HistoryEntry) (td : TweetData) (tldr : String)
    (isArticle : Bool) (idStr : String) (now : Nat) : List HistoryEntry :=
  let h := mkHistoryEntry td tldr isArticle idStr now :: stored
  if MAX_HISTORY < h.length then h.take MAX_HISTORY else h

/-- `clearHistory` (popup): the stored list is replaced with `[]`. -/
def clearHistory (_stored : List HistoryEntry) : List HistoryEntry := []

/-! ### Tiered markdown saving (`saveMarkdownFile`)

The chrome.* side effects (native messaging, tab messaging, the
downloads API) are modelled as an oracle environment; the `lastSave`
record written to `chrome.storage.local` is returned explicitly
(at most one write happens per call), together with the ordered list of
tiers that were attempted. -/

structure SaveOutcome where
  timestamp : Nat
  success : Bool
  method : Option String
  path : Option String
  error : Option String
deriving Repr, DecidableEq

structure NativeResp where
  success : Bool
  path : String
  error : String
deriving Repr, DecidableEq

inductive DlState
  | complete
  | interrupted
  | timeout
deriving Repr, DecidableEq

inductive Tier
  | native
  | contentScript
  | downloads
deriving Repr, DecidableEq

structure SaveEnv where
  now : Nat
  date : JsDate
  mdFolderPath : String
  nativeResponse : Option NativeResp
  csThrows : Bool
  downloadStart : Except String Nat
  downloadState : DlState
  senderTabId : Option Nat

/-- `writeViaNativeHost`: skipped when no folder is configured; a thrown
`sendNativeMessage` (`nativeResponse = none`) or an unsuccessful
response yields `false` with no `lastSave` write; success records a
`method: 'native'` outcome. -/
def writeViaNativeHost (env : SaveEnv) (_markdown _fileName : String) : Bool × Option SaveOutcome :=
  if env.mdFolderPath = "" then (false, none)
  else
    match env.nativeResponse with
    | none => (false, none)
    | some r =>
      if r.success then
        (true, some { timestamp := env.now, success := true, method := some "native"
                      path := some r.path, error := none })
      else (false, none)

/-- `writeViaContentScript`: a thrown `tabs.sendMessage` yields `false`;
otherwise success is recorded with `method: 'content-script'`. -/
def writeViaContentScript (env : SaveEnv) (_markdown : String) (fileName : String) : Bool × Option SaveOutcome :=
  if env.csThrows then (false, none)
  else
    (true, some { timestamp := env.now, success := true, method := some "content-script"
                  path := some ("Downloads/" ++ fileName), error := none })

/-- `writeViaDownloads`: `downloads.download` may throw (the error
propagates to the caller's catch); a completed download records success,
an interrupted one records failure, the 30s safety timeout resolves
without recording anything. -/
def writeViaDownloads (env : SaveEnv) (_markdown : String) (fileName : String) :
    Except String (Option SaveOutcome) :=
  match env.downloadStart with
  | Except.error e => Except.error e
  | Except.ok _ =>
    match env.downloadState with
    | DlState.complete =>
      Except.ok (some { timestamp := env.now, success := true, method := some "downloads"
                        path := some ("Downloads/bookmark-is-learned/" ++ fileName)
                        error := none })
    | DlState.interrupted =>
      Except.ok (some { timestamp := env.now, success := false, method := some "downloads"
                        path := none, error := some "download interrupted" })
    | DlState.timeout => Except.ok none

/-- The `lastSave` record written by `saveMarkdownFile`'s catch block. -/
def catchRecord (now : Nat) (e : String) : SaveOutcome :=
  { timestamp := now, success := false, method := none, path := none, error := some e }

/-- The downloads tier as seen from `saveMarkdownFile`: a thrown error is
caught and recorded as a failed `lastSave`. -/
def downloadsTier (env : SaveEnv) (markdown fileName : String) : Option SaveOutcome :=
  match writeViaDownloads env markdown fileName with
  | Except.ok ls => ls
  | Except.error e => some (catchRecord env.now e)

/-- `saveMarkdownFile`: native host, then (when a sender tab exists) the
content-script download, then the downloads API; first success wins, and
any thrown error is swallowed after recording a failed `lastSave`.
Returns the ordered list of attempted tiers and the final `lastSave`
write (`none` when nothing was written). -/
def saveMarkdownFile (env : SaveEnv) (td : TweetData) (tldr : String)
    (ac qc : Option FetchedContent) (isArticle : Bool) (mode : String) :
    List Tier × Option SaveOutcome :=
  let markdown := buildMarkdownContent td tldr ac qc isArticle mode env.date
  let fileName := buildFileName td ac isArticle env.date
  if (writeViaNativeHost env markdown fileName).1 then
    ([Tier.native], (writeViaNativeHost env markdown fileName).2)
  else if env.senderTabId.isSome then
    (if (writeViaContentScript env markdown fileName).1 then
      ([Tier.native, Tier.contentScript], (writeViaContentScript env markdown fileName).2)
    else
      ([Tier.native, Tier.contentScript, Tier.downloads], downloadsTier env markdown fileName))
  else ([Tier.native, Tier.downloads], downloadsTier env markdown fileName)

/-! ### Content extractor (`extractPageContent`, runs inside the tab)

The DOM is modelled as one `PageState` per poll attempt: the fields hold
exactly what the four extraction stages query (`innerText` of the first
matching article selector, the list of rendered tweets, the heading
layout of `main`, the primary column text). -/

structure TweetEl where
  authorName : String
  tweetText : String
deriving Repr, DecidableEq

structure PageState where
  href : String
  documentTitle : String
  h1Text : Option String
  articleEls : List String
  tweets : List TweetEl
  mainText : Option String
  mainH1Count : Nat
  bodyContainerText : Option String
  bodyContainerCleanText : String
  precedingSiblings : List String
  primaryColumnText : Option String
deriving Repr, DecidableEq

/-- Stage 1: the first article-selector element whose trimmed text
exceeds 100 characters. -/
def stage1 (st : PageState) : Option FetchedContent :=
  match st.articleEls.find? (fun t => 100 < (jsTrimS t).length) with
  | some t => some { title := st.h1Text.getD st.documentTitle, body := jsSlice (jsTrimS t) 15000 }
  | none => none

/-- The author-name line the loop compares: the first line of the
`User-Name` element's text (empty when the element is missing). -/
def authorLineOf (t : TweetEl) : String := (splitNl t.authorName).headD ""

/-- The thread-collection loop body after the first tweet: stop at 10
collected texts or at the first author change; push nonempty texts. -/
def threadLoop (firstAuthor : String) : List TweetEl → List String → List String
  | [], acc => acc
  | t :: rest, acc =>
    if 10 ≤ acc.length then acc
    else if authorLineOf t ≠ firstAuthor then acc
    else if jsTrimS t.tweetText ≠ "" then threadLoop firstAuthor rest (acc ++ [t.tweetText])
    else threadLoop firstAuthor rest acc

/-- The `textParts` array of the thread-collection stage. -/
def collectThreadTexts (tweets : List TweetEl) : List String :=
  match tweets with
  | [] => []
  | t0 :: rest =>
    threadLoop (authorLineOf t0)
      rest (if jsTrimS t0.tweetText ≠ "" then [t0.tweetText] else [])

/-- Stage 2 (threads; skipped on article URLs): combine consecutive
same-author tweet texts, accept if longer than 50. -/
def stage2 (st : PageState) : Option FetchedContent :=
  match st.tweets with
  | [] => none
  | _ =>
    let combined := String.intercalate "\n\n" (collectThreadTexts st.tweets)
    if 50 < combined.length then some { title := "", body := jsSlice combined 15000 }
    else none

/-- The title scan of stage 3: first preceding sibling whose trimmed text
is a short single line without `@`. -/
def scanStage3Title (sibs : List String) : Option String :=
  (sibs.map jsTrimS).find? (fun t =>
    t ≠ "" ∧ 5 < t.length ∧ t.length < 200 ∧ strContains t "@" = false ∧
    strContains t "\n" = false)

/-- Stage 3 (X Article focus mode): at least two h1 headings inside
`main`, body container text longer than 200 after trimming. -/
def stage3 (st : PageState) : Option FetchedContent :=
  match st.mainText with
  | none => none
  | some _ =>
    if 2 ≤ st.mainH1Count then
      match st.bodyContainerText with
      | some bt =>
        if 200 < (jsTrimS bt).length then
          some { title := (scanStage3Title st.precedingSiblings).getD st.documentTitle
                 body := jsSlice (jsTrimS st.bodyContainerCleanText) 15000 }
        else none
      | none => none
    else none

/-- Stage 4 (final fallback once the polling budget is exhausted):
primary column (else `main`) text when longer than 200; else null. -/
def stage4 (st : PageState) : Option FetchedContent :=
  match (match st.primaryColumnText with
         | some t => some t
         | none => st.mainText) with
  | some txt =>
    if 200 < txt.length then
      some { title := st.h1Text.getD st.documentTitle, body := jsSlice txt 15000 }
    else none
  | none => none

/-- One poll tick of `extractPageContent`: `some r` resolves the promise
with `r`, `none` keeps polling.  The identity guard runs first: while
the expected numeric ID is absent from `location.href` the tick skips
all stages, and on the final attempt it resolves `null`. -/
def extractTick (expectedId : String) (isArticleUrl : Bool) (st : PageState)
    (attempts maxAttempts : Nat) : Option (Option FetchedContent) :=
  if expectedId ≠ "" ∧ strContains st.href expectedId = false then
    (if attempts < maxAttempts then none else some none)
  else
    match stage1 st with
    | some fc => some (some fc)
    | none =>
      match (if isArticleUrl then none else stage2 st) with
      | some fc => some (some fc)
      | none =>
        match stage3 st with
        | some fc => some (some fc)
        | none =>
          if maxAttempts ≤ attempts then some (stage4 st) else none

/-- The poll loop: attempt counter starts at 1, fuel counts the
remaining attempts out of 16. -/
def extractLoop (expectedId : String) (isArticleUrl : Bool) (pages : Nat → PageState) :
    Nat → Nat → Option FetchedContent
  | _, 0 => none
  | attempts, fuel + 1 =>
    match extractTick expectedId isArticleUrl (pages attempts) attempts 16 with
    | some r => r
    | none => extractLoop expectedId isArticleUrl pages (attempts + 1) fuel

/-- `extractPageContent(expectedId, isArticleUrl)` over the sequence of
page states the polling interval observes. -/
def extractPageContent (expectedId : String) (isArticleUrl : Bool)
    (pages : Nat → PageState) : Option FetchedContent :=
  extractLoop expectedId isArticleUrl pages 1 16

/-! ### Prompt builder (`buildPrompt`) -/

structure Prompt where
  system : String
  user : String
deriving Repr, DecidableEq

/-- The language-code-to-name table; unrecognized codes pass through. -/
def langNameOf (language : String) : String :=
  if language = "zh-CN" then "简体中文"
  else if language = "zh-TW" then "繁體中文"
  else if language = "en" then "English"
  else if language = "ja" then "日本語"
  else if language = "ko" then "한국어"
  else language

/-- The `userContent` assembly of `buildPrompt`.  In the article branch
the source reads `articleContent.title` unconditionally; the caller only
passes `isArticle = true` alongside a present article, the `none` arm is
unreachable there. -/
def promptUserContent (td : TweetData) (ac qc : Option FetchedContent)
    (isArticle hasQuotedFull : Bool) : String :=
  let base :=
    if isArticle then
      match ac with
      | some c => "Article: \"" ++ c.title ++ "\"\nBy " ++ td.author ++ "\n\n" ++ c.body
      | none => ""
    else if td.text ≠ "" then "Tweet by " ++ td.author ++ ":\n" ++ td.text
    else if td.cardText ≠ "" then "Post by " ++ td.author ++ ":\n" ++ td.cardText
    else if td.fallbackText ≠ "" then "Content by " ++ td.author ++ ":\n" ++ td.fallbackText
    else ""
  let withRefs :=
    if td.referencedUrls ≠ [] then
      base ++ "\n\nReferenced links:\n"
        ++ String.intercalate "\n" (td.referencedUrls.map (fun u => "- " ++ u))
    else base
  let withQuoted :=
    if hasQuotedFull then
      match qc with
      | some c =>
        withRefs ++ "\n\n--- Quoted / referenced post (by "
          ++ jsOr td.quotedAuthor "another user" ++ ") ---\n" ++ c.body
      | none => withRefs
    else if td.quotedText ≠ "" then
      withRefs ++ "\n\nQuoted tweet (by " ++ jsOr td.quotedAuthor "another user" ++ "):\n"
        ++ td.quotedText
    else withRefs
  if ¬ isArticle ∧ td.text ≠ "" ∧ td.cardText ≠ "" then
    withQuoted ++ "\n\nAttached card:\n" ++ td.cardText
  else withQuoted

def factCheckBlock : String :=
  "\n\n--- FACT CHECK (MANDATORY) ---\n"
  ++ "At the very end, add a fact-check section with this exact format:\n\n"
  ++ "**Fact Check**\n"
  ++ "- Identify the key factual claims in the content.\n"
  ++ "- For each claim, briefly note whether it is **verifiable**, **partially verifiable**, **opinion**, or **unverifiable**.\n"
  ++ "- End with an overall credibility line:\n"
  ++ "  Credibility: X/10 — one-sentence justification.\n"
  ++ "  (10 = fully verified facts with sources, 5 = mixed facts and opinions, 1 = misleading or fabricated)\n"

def articleTemplate (langName : String) : String :=
  "You are an expert content analyst. The user bookmarked an X Article (long-form post). "
  ++ "Provide a thorough, high-value summary in " ++ langName ++ ".\n\n"
  ++ "Format:\n"
  ++ "**TLDR** — one sentence capturing the core thesis.\n\n"
  ++ "**Key Value Points**\n"
  ++ "- Extract 5-8 of the most valuable insights, actionable advice, data points, or frameworks from the article.\n"
  ++ "- Each point should be self-contained and useful even without reading the original.\n"
  ++ "- Use **bold** for key terms, names, numbers, and takeaways.\n\n"
  ++ "**Process / Steps** (only if the article is a tutorial, how-to, or guide)\n"
  ++ "- List the step-by-step process or methodology described in the article.\n"
  ++ "- Number each step and include specifics (tools, parameters, commands, etc.).\n"
  ++ "- Skip this section entirely if the content is not instructional.\n\n"
  ++ "**Why It Matters** — 1-2 sentences on the broader significance or who should care.\n"
  ++ factCheckBlock

def quotedTemplate (langName : String) : String :=
  "You are an expert content analyst. The user bookmarked a tweet that quotes/references a longer post. "
  ++ "Provide a thorough summary of BOTH the tweet and the full quoted content in " ++ langName ++ ".\n\n"
  ++ "Format:\n"
  ++ "**TLDR** — one sentence on the overall message.\n\n"
  ++ "**Quoted Content Summary**\n"
  ++ "- Extract 5-8 key insights, value points, or actionable takeaways from the quoted long post.\n"
  ++ "- Use **bold** for important terms and data.\n\n"
  ++ "**Process / Steps** (only if the quoted post is a tutorial, how-to, or guide)\n"
  ++ "- List the step-by-step process described.\n"
  ++ "- Skip this section if the content is not instructional.\n\n"
  ++ "**Commenter's Take** — what did the bookmarked user add? Agreement, disagreement, extra context?\n"
  ++ factCheckBlock

def plainTemplate (langName : String) : String :=
  "You are an expert content analyst. The user bookmarked a tweet. "
  ++ "Provide a valuable summary in " ++ langName ++ ".\n\n"
  ++ "Format:\n"
  ++ "**TLDR** — one sentence summary.\n\n"
  ++ "**Key Points**\n"
  ++ "- Extract 2-5 insights, claims, or actionable takeaways.\n"
  ++ "- For substantial content (threads, long tweets), extract more points with specific details.\n"
  ++ "- Use **bold** for key terms.\n\n"
  ++ "**Process / Steps** (only if the tweet describes a tutorial, method, or workflow)\n"
  ++ "- List numbered steps with specifics. Skip if not applicable.\n"
  ++ factCheckBlock

/-- `buildPrompt(tweetData, articleContent, quotedFullContent, language,
isArticle, hasQuotedFull)`. -/
def buildPrompt (td : TweetData) (ac qc : Option FetchedContent) (language : String)
    (isArticle hasQuotedFull : Bool) : Prompt :=
  let langName := langNameOf language
  { system :=
      if isArticle then articleTemplate langName
      else if hasQuotedFull then quotedTemplate langName
      else plainTemplate langName
    user := promptUserContent td ac qc isArticle hasQuotedFull }

/-! ### Orchestrator (`handleTLDRRequest`, `fetchPageContent`)

The chrome.* surface is an oracle environment; the effects a claim
speaks about (tab creation, credential resolution, prompt building,
provider calls) are returned as an explicit trace. -/

structure Settings where
  provider : String := "openai"
  language : String := "zh-CN"
  model : String := ""
  baseUrl : String := ""
  mdMode : String := "tldr"
  aiEnabled : Bool := true

structure TldrResult where
  tldr : String
  articleContent : Option FetchedContent
  quotedFullContent : Option FetchedContent
  isArticle : Bool
  mode : String
deriving Repr, DecidableEq

inductive Effect
  | createTab (url : String)
  | resolveCredential
  | buildPromptStep
  | callProvider
deriving Repr, DecidableEq

/-- The oracle environment: what the fetched tab would extract, the
stored credential (`none` = absent, `some none` = decryption throws,
`some (some k)` = decrypts to `k`), the endpoint resolution outcome
(`resolveApiEndpoint` plus the permission check), and the provider HTTP
call. -/
structure Env where
  fetchResult : String → Option FetchedContent
  storedKey : Option (Option String)
  resolveEndpoint : String → String → Except String String
  providerCall : String → Option String → String → String → Prompt → Nat → Except String String

/-- `fetchPageContent(pageUrl)`: a URL outside the allow-list returns
`null` immediately, before any browsing context is created; otherwise a
background tab is created and the in-tab extraction result is returned. -/
def fetchPageContent (env : Env) (pageUrl : String) : Option FetchedContent × List Effect :=
  if isAllowedFetchUrl pageUrl = false then (none, [])
  else (env.fetchResult pageUrl, [Effect.createTab pageUrl])

/-- The credential-resolution step: skipped for the local provider,
fail-closed on a missing key, a failed decryption, or an empty key. -/
def credentialStep (env : Env) (provider : String) : Except String (Option String) :=
  if provider = "local-claude" then Except.ok none
  else
    match env.storedKey with
    | none => Except.error "请先在插件设置中填写 API Key"
    | some none => Except.error "API Key 解密失败，请重新保存 API Key"
    | some (some k) =>
      if k = "" then Except.error "请先在插件设置中填写 API Key" else Except.ok (some k)

def providerKnown (p : String) : Bool :=
  p = "openai" ∨ p = "claude" ∨ p = "kimi" ∨ p = "zhipu" ∨ p = "local-claude"

def defaultModelFor (p : String) : String :=
  if p = "openai" then "gpt-4o-mini"
  else if p = "claude" then "claude-sonnet-4-20250514"
  else if p = "kimi" then "moonshot-v1-8k"
  else if p = "zhipu" then "glm-4-flash"
  else ""

/-- `handleTLDRRequest(tweetData, articleUrl, quotedTweetUrl)`: fetch
the article, fetch the quoted post when its inline preview is shorter
than 500 characters, short-circuit to a raw result when AI is disabled,
else resolve the credential, build the prompt, resolve the endpoint and
call the provider. -/
def handleTLDRRequest (env : Env) (s : Settings) (td : TweetData)
    (articleUrl quotedTweetUrl : Option String) : Except String TldrResult × List Effect :=
  let af :=
    match articleUrl with
    | some u => fetchPageContent env u
    | none => (none, [])
  let qf :=
    match quotedTweetUrl with
    | some u => if td.quotedText.length < 500 then fetchPageContent env u else (none, [])
    | none => (none, [])
  let articleContent := af.1
  let quotedFullContent := qf.1
  let tr0 := af.2 ++ qf.2
  let isArticle := match articleContent with | some c => c.body ≠ "" | none => false
  if s.aiEnabled = false then
    (Except.ok { tldr := "", articleContent := articleContent
                 quotedFullContent := quotedFullContent, isArticle := isArticle
                 mode := "raw" }, tr0)
  else
    let credTrace := if s.provider = "local-claude" then ([] : List Effect)
                     else [Effect.resolveCredential]
    match credentialStep env s.provider with
    | Except.error e => (Except.error e, tr0 ++ credTrace)
    | Except.ok apiKey =>
      let hasQuotedFull := match quotedFullContent with | some c => c.body ≠ "" | none => false
      let prompt := buildPrompt td articleContent quotedFullContent s.language isArticle hasQuotedFull
      let maxTokens := if isArticle ∨ hasQuotedFull then 2000 else 1000
      match env.resolveEndpoint s.provider s.baseUrl with
      | Except.error e => (Except.error e, tr0 ++ credTrace ++ [Effect.buildPromptStep])
      | Except.ok endpoint =>
        if providerKnown s.provider then
          match env.providerCall s.provider apiKey endpoint
                  (jsOr s.model (defaultModelFor s.provider)) prompt maxTokens with
          | Except.error e =>
            (Except.error e, tr0 ++ credTrace ++ [Effect.buildPromptStep, Effect.callProvider])
          | Except.ok tldr =>
            (Except.ok { tldr := tldr, articleContent := articleContent
                         quotedFullContent := quotedFullContent, isArticle := isArticle
                         mode := s.mdMode },
             tr0 ++ credTrace ++ [Effect.buildPromptStep, Effect.callProvider])
        else (Except.error ("不支持的模型: " ++ s.provider),
              tr0 ++ credTrace ++ [Effect.buildPromptStep])

/-! ### Concrete instances used by witnesses and counterexamples -/

def dateW : JsDate := ⟨2026, 1, 11, 14, 30, 22⟩

def tdW : TweetData := { text := "Hello world", tweetUrl := "https://x.com/user/status/123" }

def envNull : Env :=
  { fetchResult := fun _ => none, storedKey := none
    resolveEndpoint := fun _ _ => Except.error "e"
    providerCall := fun _ _ _ _ _ _ => Except.error "e" }

def settingsAiOff : Settings := { aiEnabled := false }

/-- A page state whose location never matches the requested identity. -/
def stalePageW : PageState :=
  { href := "https://x.com/home", documentTitle := "T", h1Text := none
    articleEls := [], tweets := [], mainText := none, mainH1Count := 0
    bodyContainerText := none, bodyContainerCleanText := ""
    precedingSiblings := [], primaryColumnText := none }

/-- A save environment where the native host responds with a write
error and the content-script tier succeeds. -/
def envC3fail : SaveEnv :=
  { now := 0, date := dateW, mdFolderPath := "/tmp/md"
    nativeResponse := some ⟨false, "", "write failed"⟩, csThrows := false
    downloadStart := Except.ok 1, downloadState := DlState.complete
    senderTabId := some 7 }

/-- A save environment where the native host succeeds. -/
def envC3ok : SaveEnv :=
  { envC3fail with nativeResponse := some ⟨true, "/tmp/md/x.md", ""⟩ }

/-- A body with 25 metadata lines followed by further metadata past the
scan window. -/
def c7Body : String :=
  String.intercalate "\n" (List.replicate 25 "·") ++ "\n@abc\nreal"

/-- Char-list predicate "is not `sep`". -/
def neChar (sep c : Char) : Bool := decide (c ≠ sep)

/-! ### General helper lemmas -/

theorem toList_mk (l : List Char) : String.toList ⟨l⟩ = l := rfl

theorem mk_toList (s : String) : (⟨s.toList⟩ : String) = s := rfl

/-! ### C10 helper lemmas -/

theorem threadLoop_len (fa : String) (ts : List TweetEl) :
    ∀ acc : List String, acc.length ≤ 10 → (threadLoop fa ts acc).length ≤ 10 := by
  induction ts with
  | nil => intro acc h; simpa [threadLoop] using h
  | cons t rest ih =>
    intro acc h
    unfold threadLoop
    by_cases h10 : 10 ≤ acc.length
    · rw [if_pos h10]; exact h
    · rw [if_neg h10]
      by_cases ha : authorLineOf t ≠ fa
      · rw [if_pos ha]; exact h
      · rw [if_neg ha]
        by_cases htxt : jsTrimS t.tweetText ≠ ""
        · rw [if_pos htxt]
          exact ih _ (by simp only [List.length_append, List.length_cons,
            List.length_nil]; omega)
        · rw [if_neg htxt]; exact ih _ h

/-- C10: in the thread/quote collection path of the content extractor, at
most 10 post texts are ever concatenated into the returned body
(`textParts.length < 10` is part of the loop guard), even when more
consecutive same-author posts are present in document order. -/
theorem c10_thread_collection_cap (tweets : List TweetEl) :
    (collectThreadTexts tweets).length ≤ 10 := by
  cases tweets with
  | nil => simp [collectThreadTexts]
  | cons t0 rest =>
    unfold collectThreadTexts
    apply threadLoop_len
    by_cases h : jsTrimS t0.tweetText ≠ "" <;> simp [h]

/-- C9: `saveToHistory` prepends the new entry to the front of the
stored list, the stored list never exceeds `MAX_HISTORY = 200` entries
afterwards (the oldest are dropped from the back by `take`), clearing
replaces the list with `[]`, and every entry of the new list is either
the new entry or one of the previously stored entries, unchanged. -/
theorem c9_history_bounded (stored : List HistoryEntry) (td : TweetData) (tldr : String)
    (isArt : Bool) (idStr : String) (now : Nat) :
    saveToHistory stored td tldr isArt idStr now
      = (mkHistoryEntry td tldr isArt idStr now :: stored).take MAX_HISTORY ∧
    (saveToHistory stored td tldr isArt idStr now).length ≤ MAX_HISTORY ∧
    (saveToHistory stored td tldr isArt idStr now).head?
      = some (mkHistoryEntry td tldr isArt idStr now) ∧
    (∀ x ∈ saveToHistory stored td tldr isArt idStr now,
       x = mkHistoryEntry td tldr isArt idStr now ∨ x ∈ stored) ∧
    clearHistory stored = [] := by
  have h1 : saveToHistory stored td tldr isArt idStr now
      = (mkHistoryEntry td tldr isArt idStr now :: stored).take MAX_HISTORY := by
    unfold saveToHistory
    by_cases h : MAX_HISTORY < (mkHistoryEntry td tldr isArt idStr now :: stored).length
    · rw [if_pos h]
    · rw [if_neg h, List.take_of_length_le (Nat.le_of_not_lt h)]
  refine ⟨h1, ?_, ?_, ?_, rfl⟩
  · rw [h1]; exact List.length_take_le _ _
  · rw [h1]; rfl
  · intro x hx
    rw [h1] at hx
    have := List.take_subset _ _ hx
    simpa using this

/-- C9 witness: the membership conjunct applied at a concrete store. -/
theorem c9_history_bounded_witness :
    mkHistoryEntry tdW "t" false "id" 5 = mkHistoryEntry tdW "t" false "id" 5 ∨
    mkHistoryEntry tdW "t" false "id" 5 ∈ ([] : List HistoryEntry) :=
  (c9_history_bounded [] tdW "t" false "id" 5).2.2.2.1 _ (by decide)

/-- C4: `isAllowedFetchUrl` returns true exactly when the URL parses and
its hostname is one of the fixed allow-listed hosts (exact match, so
`sub.x.com` is rejected), false for malformed URLs and the empty string;
and whenever it returns false, `fetchPageContent` returns `null`
immediately without creating a browsing context (no `createTab` effect). -/
theorem c4_fetch_allowlist :
    (∀ url : String, isAllowedFetchUrl url = true ↔
        ∃ p, parseUrl url = some p ∧ p.hostname ∈ ALLOWED_FETCH_HOSTS) ∧
    isAllowedFetchUrl "https://x.com/user/status/123" = true ∧
    isAllowedFetchUrl "https://twitter.com/user/status/123" = true ∧
    isAllowedFetchUrl "https://mobile.twitter.com/user/status/123" = true ∧
    isAllowedFetchUrl "https://sub.x.com/page" = false ∧
    isAllowedFetchUrl "https://evil.com/page" = false ∧
    isAllowedFetchUrl "not-a-url" = false ∧
    isAllowedFetchUrl "" = false ∧
    (∀ (env : Env) (url : String), isAllowedFetchUrl url = false →
      fetchPageContent env url = (none, [])) := by
  refine ⟨?_, by decide, by decide, by decide, by decide, by decide, by decide, by decide, ?_⟩
  · intro url
    unfold isAllowedFetchUrl
    cases h : parseUrl url with
    | none => simp
    | some p => simp [List.contains, List.elem_iff]
  · intro env url h
    unfold fetchPageContent
    rw [if_pos h]

/-- C4 witness: a disallowed URL goes through the short-circuit. -/
theorem c4_fetch_allowlist_witness :
    fetchPageContent envNull "https://evil.com/page" = (none, []) :=
  c4_fetch_allowlist.2.2.2.2.2.2.2.2 envNull _ (by decide)

/-! ### C2 helper lemma -/

theorem extractLoop_stale (expectedId : String) (isArticleUrl : Bool) (pages : Nat → PageState)
    (hne : expectedId ≠ "")
    (hstale : ∀ n, n < 17 → strContains (pages n).href expectedId = false) :
    ∀ fuel attempts, attempts + fuel = 17 → 1 ≤ fuel →
      extractLoop expectedId isArticleUrl pages attempts fuel = none := by
  intro fuel
  induction fuel with
  | zero => intro attempts h h1; omega
  | succ f ih =>
    intro attempts hsum _
    unfold extractLoop
    have hguard : extractTick expectedId isArticleUrl (pages attempts) attempts 16
        = if attempts < 16 then none else some none := by
      unfold extractTick
      rw [if_pos ⟨hne, hstale attempts (by omega)⟩]
    by_cases hlt : attempts < 16
    · rw [hguard, if_pos hlt]
      exact ih (attempts + 1) (by omega) (by omega)
    · rw [hguard, if_neg hlt]

/-- C2: for a deep-fetch whose URL contains an expected numeric ID
(`expectedId ≠ ""`), if the sandboxed page's location never contains
that ID during the whole polling budget (16 attempts), the content
extractor resolves `null`, regardless of what content the stale page
renders. -/
theorem c2_identity_guard (expectedId : String) (isArticleUrl : Bool)
    (pages : Nat → PageState) (hne : expectedId ≠ "")
    (hstale : ∀ n, n < 17 → strContains (pages n).href expectedId = false) :
    extractPageContent expectedId isArticleUrl pages = none :=
  extractLoop_stale expectedId isArticleUrl pages hne hstale 16 1 rfl (by omega)

/-- C2 witness: a page stuck on the timeline never matches the ID. -/
theorem c2_identity_guard_witness :
    extractPageContent "1234567890" false (fun _ => stalePageW) = none :=
  c2_identity_guard "1234567890" false (fun _ => stalePageW) (by decide) (by decide)

/-! ### C6 helper lemmas -/

theorem escUrlL_cons (c : Char) (cs : List Char) :
    escUrlL (c :: cs)
      = (if c = '(' ∨ c = ')' then '%' :: hexByteU c.toNat else [c]) ++ escUrlL cs := by
  simp [escUrlL]

theorem hexByteU_lparen : hexByteU '('.toNat = ['2', '8'] := by decide

theorem hexByteU_rparen : hexByteU ')'.toNat = ['2', '9'] := by decide

theorem escUrlL_no_parens : ∀ l : List Char, ∀ c ∈ escUrlL l, c ≠ '(' ∧ c ≠ ')' := by
  intro l
  induction l with
  | nil => intro c hc; simp [escUrlL] at hc
  | cons a as ih =>
    intro c hc
    rw [escUrlL_cons] at hc
    rcases List.mem_append.1 hc with h | h
    · by_cases ha : a = '(' ∨ a = ')'
      · rw [if_pos ha] at h
        rcases ha with ha | ha <;> subst ha
        · rw [hexByteU_lparen] at h
          simp at h
          rcases h with h | h | h <;> subst h <;> exact ⟨by decide, by decide⟩
        · rw [hexByteU_rparen] at h
          simp at h
          rcases h with h | h | h <;> subst h <;> exact ⟨by decide, by decide⟩
      · rw [if_neg ha] at h
        push_neg at ha
        simp at h
        subst h
        exact ha
    · exact ih c h

theorem percentDecode_cons_ne (c : Char) (l : List Char) (h : ¬ c = '%') :
    percentDecode (c :: l) = c :: percentDecode l := by
  rw [percentDecode.eq_def]
  simp [h]

theorem percentDecode_triple (h1 h2 : Char) (l : List Char)
    (hh : isHexDigitCh h1 = true ∧ isHexDigitCh h2 = true) :
    percentDecode ('%' :: h1 :: h2 :: l)
      = Char.ofNat (hexVal h1 * 16 + hexVal h2) :: percentDecode l := by
  rw [percentDecode.eq_def]
  simp [hh]

theorem percentDecode_escUrlL : ∀ l : List Char, '%' ∉ l →
    percentDecode (escUrlL l) = l := by
  intro l
  induction l with
  | nil => intro _; simp [escUrlL, percentDecode]
  | cons a as ih =>
    intro hp
    have hane : a ≠ '%' := fun h => hp (h ▸ List.mem_cons_self a as)
    have has : '%' ∉ as := fun h => hp (List.mem_cons_of_mem a h)
    rw [escUrlL_cons]
    by_cases ha : a = '(' ∨ a = ')'
    · rw [if_pos ha]
      rcases ha with ha | ha <;> subst ha
      · rw [hexByteU_lparen]
        show percentDecode ('%' :: '2' :: '8' :: escUrlL as) = '(' :: as
        rw [percentDecode_triple _ _ _ (by decide), ih has]
        have hc : Char.ofNat (hexVal '2' * 16 + hexVal '8') = '(' := by decide
        rw [hc]
      · rw [hexByteU_rparen]
        show percentDecode ('%' :: '2' :: '9' :: escUrlL as) = ')' :: as
        rw [percentDecode_triple _ _ _ (by decide), ih has]
        have hc : Char.ofNat (hexVal '2' * 16 + hexVal '9') = ')' := by decide
        rw [hc]
    · rw [if_neg ha, List.singleton_append, percentDecode_cons_ne a _ hane, ih has]

theorem escTextL_cons (c : Char) (cs : List Char) :
    escTextL (c :: cs) = (if c = '[' ∨ c = ']' then ['\\', c] else [c]) ++ escTextL cs := by
  simp [escTextL]

theorem removeBracketEscapes_cons_ne (c : Char) (l : List Char) (h : ¬ c = '\\') :
    removeBracketEscapes (c :: l) = c :: removeBracketEscapes l := by
  rw [removeBracketEscapes.eq_def]
  simp [h]

theorem removeBracketEscapes_bs_bracket (d : Char) (l : List Char) (h : d = '[' ∨ d = ']') :
    removeBracketEscapes ('\\' :: d :: l) = d :: removeBracketEscapes l := by
  rw [removeBracketEscapes.eq_def]
  simp [h]

theorem removeBracketEscapes_bs_other (d : Char) (l : List Char) (h : ¬ (d = '[' ∨ d = ']')) :
    removeBracketEscapes ('\\' :: d :: l) = '\\' :: removeBracketEscapes (d :: l) := by
  rw [removeBracketEscapes.eq_def]
  simp [h]

theorem escTextL_head_not_bracket (l : List Char) (c : Char)
    (h : (escTextL l).head? = some c) : ¬ (c = '[' ∨ c = ']') := by
  cases l with
  | nil => simp [escTextL] at h
  | cons a as =>
    rw [escTextL_cons] at h
    by_cases ha : a = '[' ∨ a = ']'
    · rw [if_pos ha] at h
      simp at h
      subst h
      decide
    · rw [if_neg ha] at h
      simp at h
      exact h ▸ ha

theorem removeBracketEscapes_escTextL : ∀ l : List Char,
    removeBracketEscapes (escTextL l) = l := by
  intro l
  induction l with
  | nil => simp [escTextL, removeBracketEscapes]
  | cons a as ih =>
    rw [escTextL_cons]
    by_cases ha : a = '[' ∨ a = ']'
    · rw [if_pos ha]
      show removeBracketEscapes ('\\' :: a :: escTextL as) = a :: as
      rw [removeBracketEscapes_bs_bracket a _ ha, ih]
    · rw [if_neg ha, List.singleton_append]
      by_cases hbs : a = '\\'
      · subst hbs
        cases hE : escTextL as with
        | nil =>
          have hasnil : as = [] := by
            cases as with
            | nil => rfl
            | cons b bs =>
              rw [escTextL_cons] at hE
              by_cases hb : b = '[' ∨ b = ']' <;> simp [hb] at hE
          subst hasnil
          rw [removeBracketEscapes.eq_def]
          rfl
        | cons e es =>
          have hnb : ¬ (e = '[' ∨ e = ']') :=
            escTextL_head_not_bracket as e (by rw [hE]; rfl)
          rw [removeBracketEscapes_bs_other e _ hnb, ← hE, ih]
      · rw [removeBracketEscapes_cons_ne a _ hbs, ih]

theorem bracketRunScan_escTextL_backslashed : ∀ (l : List Char) (bs : Nat),
    bracketRunScan (fun k => decide (1 ≤ k)) bs (escTextL l) = true := by
  intro l
  induction l with
  | nil => intro bs; rfl
  | cons a as ih =>
    intro bs
    rw [escTextL_cons]
    by_cases ha : a = '[' ∨ a = ']'
    · rw [if_pos ha]
      show bracketRunScan _ bs ('\\' :: a :: escTextL as) = true
      unfold bracketRunScan
      rw [if_pos rfl]
      unfold bracketRunScan
      rw [if_neg (by rcases ha with h | h <;> subst h <;> decide), if_pos ha]
      simp only [Bool.and_eq_true, decide_eq_true_eq]
      exact ⟨by omega, ih 0⟩
    · rw [if_neg ha, List.singleton_append]
      unfold bracketRunScan
      by_cases hbs : a = '\\'
      · rw [if_pos hbs]; exact ih (bs + 1)
      · rw [if_neg hbs, if_neg ha]; exact ih 0

theorem bracketRunScan_escTextL_exact : ∀ l : List Char, '\\' ∉ l →
    bracketRunScan (fun k => decide (k = 1)) 0 (escTextL l) = true := by
  intro l
  induction l with
  | nil => intro _; rfl
  | cons a as ih =>
    intro hp
    have hane : a ≠ '\\' := fun h => hp (h ▸ List.mem_cons_self a as)
    have has : '\\' ∉ as := fun h => hp (List.mem_cons_of_mem a h)
    rw [escTextL_cons]
    by_cases ha : a = '[' ∨ a = ']'
    · rw [if_pos ha]
      show bracketRunScan _ 0 ('\\' :: a :: escTextL as) = true
      unfold bracketRunScan
      rw [if_pos rfl]
      unfold bracketRunScan
      rw [if_neg (by rcases ha with h | h <;> subst h <;> decide), if_pos ha]
      simp only [Bool.and_eq_true, decide_eq_true_eq]
      exact ⟨by trivial, ih has⟩
    · rw [if_neg ha, List.singleton_append]
      unfold bracketRunScan
      rw [if_neg hane, if_neg ha]
      exact ih has

/-- C6 counterexample: as stated, the claim fails on the code.  For the
URL `"%28"` (no parentheses, so escaping leaves it unchanged),
percent-decoding the output yields `"("`, not the original URL; and for
the text `"\["` the escaped output `"\\["` has its `[` preceded by two
backslashes, not exactly one. -/
theorem c6_escape_cex :
    percentDecode (escapeMarkdownLinkUrl "%28").toList ≠ "%28".toList ∧
    bracketsEscapedExactlyOnce (escapeMarkdownLinkText "\\[").toList = false := by
  constructor
  · simp [escapeMarkdownLinkUrl, escUrlL, percentDecode]
    decide
  · decide

/-- C6 amended: `escape(url)` never contains a literal `(` or `)`, and
percent-decoding recovers the original URL provided the URL contains no
`%` of its own; every `[`/`]` in `escape(text)` is preceded by at least
one backslash — by exactly one when the text contains no backslash of
its own — and removing the escape backslashes always recovers the
original text. -/
theorem c6_escape_amended (url text : String) :
    (∀ c ∈ (escapeMarkdownLinkUrl url).toList, c ≠ '(' ∧ c ≠ ')') ∧
    ('%' ∉ url.toList → percentDecode (escapeMarkdownLinkUrl url).toList = url.toList) ∧
    bracketsBackslashed (escapeMarkdownLinkText text).toList = true ∧
    ('\\' ∉ text.toList →
      bracketsEscapedExactlyOnce (escapeMarkdownLinkText text).toList = true) ∧
    removeBracketEscapes (escapeMarkdownLinkText text).toList = text.toList := by
  refine ⟨?_, ?_, ?_, ?_, ?_⟩
  · exact escUrlL_no_parens url.toList
  · exact percentDecode_escUrlL url.toList
  · exact bracketRunScan_escTextL_backslashed text.toList 0
  · exact bracketRunScan_escTextL_exact text.toList
  · exact removeBracketEscapes_escTextL text.toList

/-- C6 witness: both conditional parts at concrete inputs. -/
theorem c6_escape_amended_witness :
    percentDecode (escapeMarkdownLinkUrl "https://a.example/x(1)").toList
      = "https://a.example/x(1)".toList ∧
    bracketsEscapedExactlyOnce (escapeMarkdownLinkText "a[b]c").toList = true :=
  ⟨(c6_escape_amended "https://a.example/x(1)" "a[b]c").2.1 (by decide),
   (c6_escape_amended "https://a.example/x(1)" "a[b]c").2.2.2.1 (by decide)⟩

/-! ### C8 helper lemmas -/

theorem nlRunsToSpace_length_le : ∀ (b : Bool) (l : List Char),
    (nlRunsToSpace b l).length ≤ l.length := by
  intro b l
  induction l generalizing b with
  | nil => simp [nlRunsToSpace]
  | cons c cs ih =>
    unfold nlRunsToSpace
    by_cases h : isNlChar c = true
    · rw [if_pos h]
      by_cases hb : b = true
      · subst hb
        rw [if_pos rfl]
        exact Nat.le_succ_of_le (ih true)
      · have hb' : b = false := by revert hb; cases b <;> simp
        subst hb'
        simp only [Bool.false_eq_true, if_false, List.length_cons]
        exact Nat.succ_le_succ (ih true)
    · rw [if_neg h]
      simp only [List.length_cons]
      exact Nat.succ_le_succ (ih false)

theorem sanitizedTitleOf_length_le (t : String) :
    (sanitizedTitleOf t).length ≤ t.length := by
  unfold sanitizedTitleOf jsTrimL
  calc ((((nlRunsToSpace false t.toList).filter (fun c => ¬ isCtrlChar c)).map
          (fun c => if isFsUnsafeChar c then '_' else c)
          |> stripLeadingDots |>.dropWhile isWsChar).rdropWhile isWsChar).length
      ≤ (((nlRunsToSpace false t.toList).filter (fun c => ¬ isCtrlChar c)).map
          (fun c => if isFsUnsafeChar c then '_' else c)
          |> stripLeadingDots |>.dropWhile isWsChar).length :=
        (List.rdropWhile_prefix _ _).length_le
    _ ≤ t.length := by
        unfold stripLeadingDots
        calc _ ≤ (((nlRunsToSpace false t.toList).filter
                    (fun c => ¬ isCtrlChar c)).map
                    (fun c => if isFsUnsafeChar c then '_' else c)
                    |>.dropWhile (fun c => c = '.')).length :=
              List.Sublist.length_le (List.dropWhile_sublist _)
          _ ≤ _ := by
              have h1 := List.Sublist.length_le
                (List.dropWhile_sublist (l := ((nlRunsToSpace false t.toList).filter
                  (fun c => ¬ isCtrlChar c)).map
                  (fun c => if isFsUnsafeChar c then '_' else c)) (p := fun c => c = '.'))
              have h2 := List.length_filter_le (fun c => ¬ isCtrlChar c)
                (nlRunsToSpace false t.toList)
              have h3 := nlRunsToSpace_length_le false t.toList
              have h4 : t.length = t.toList.length := rfl
              simp only [List.length_map] at h1 ⊢
              omega

/-- C8: in `buildFileName`, a title of exactly 50 characters is left
untruncated (the 50-cap and the word-boundary trim both do nothing); a
title of 51 or more characters is truncated to at most 50 characters,
with the cut moved back to the last space only when that space sits past
position 20, and the hard 50-character cut kept otherwise. -/
theorem c8_title_truncation (title : String) :
    (title.length = 50 → safeTitleOf title = sanitizedTitleOf title) ∧
    (50 < title.length →
      (safeTitleOf title).length ≤ 50 ∧
      (20 < lastSpaceIdx ((sanitizedTitleOf title).take 50) →
        safeTitleOf title = ((sanitizedTitleOf title).take 50).take
          (lastSpaceIdx ((sanitizedTitleOf title).take 50)).toNat) ∧
      (¬ 20 < lastSpaceIdx ((sanitizedTitleOf title).take 50) →
        safeTitleOf title = (sanitizedTitleOf title).take 50)) := by
  constructor
  · intro h50
    unfold safeTitleOf
    rw [if_neg (by omega)]
    exact List.take_of_length_le (by have := sanitizedTitleOf_length_le title; omega)
  · intro hgt
    refine ⟨?_, ?_, ?_⟩
    · unfold safeTitleOf
      rw [if_pos hgt]
      by_cases hls : 20 < lastSpaceIdx ((sanitizedTitleOf title).take 50)
      · rw [if_pos hls]
        have h1 : (((sanitizedTitleOf title).take 50).take
              (lastSpaceIdx ((sanitizedTitleOf title).take 50)).toNat).length
            ≤ ((sanitizedTitleOf title).take 50).length :=
          List.Sublist.length_le (List.take_sublist _ _)
        have h2 : ((sanitizedTitleOf title).take 50).length ≤ 50 := by
          rw [List.length_take]; omega
        omega
      · rw [if_neg hls, List.length_take]; omega
    · intro hls
      unfold safeTitleOf
      rw [if_pos hgt, if_pos hls]
    · intro hls
      unfold safeTitleOf
      rw [if_pos hgt, if_neg hls]

/-- C8 witness: a 51-character title is truncated to at most 50. -/
theorem c8_title_truncation_witness :
    (safeTitleOf "aaaaaaaaaaaaaaaaaaaaaa bbbbbbbbbbbbbbbbbbbbbbbbbbbb").length ≤ 50 :=
  ((c8_title_truncation "aaaaaaaaaaaaaaaaaaaaaa bbbbbbbbbbbbbbbbbbbbbbbbbbbb").2
    (by decide)).1

/-! ### C1 helper lemmas -/

theorem title_line_ne_tldr (x : String) : "# " ++ x ≠ "## TLDR" := by
  intro h
  have hd := congrArg String.data h
  simp at hd

theorem quote_line_ne_tldr (p x : String) (hp : p.data.head? = some '>') :
    p ++ x ≠ "## TLDR" := by
  intro h
  have hd := congrArg String.data h
  rw [String.data_append] at hd
  cases hq : p.data with
  | nil => rw [hq] at hp; simp at hp
  | cons c cs =>
    rw [hq] at hp hd
    simp at hp
    subst hp
    simp at hd

theorem subsection_line_ne_tldr (x : String) : "### " ++ x ≠ "## TLDR" := by
  intro h
  have hd := congrArg String.data h
  simp at hd

theorem ref_line_ne_tldr (x : String) : "- [" ++ x ≠ "## TLDR" := by
  intro h
  have hd := congrArg String.data h
  simp at hd

theorem metricsLine_ne_tldr (m : Metrics) : metricsLine m ≠ "## TLDR" := by
  unfold metricsLine
  intro h
  have hd := congrArg String.data h
  simp at hd

theorem tldr_not_in_origMain (td : TweetData) (ac : Option FetchedContent) (isArticle : Bool)
    (author : String)
    (h1 : td.text ≠ "## TLDR") (h2 : td.cardText ≠ "## TLDR")
    (h3 : stripArticleMetadataPrefix td.fallbackText "" author ≠ "## TLDR")
    (h4 : ∀ c, ac = some c →
      stripArticleMetadataPrefix c.body c.title author ≠ "## TLDR") :
    "## TLDR" ∉ origMainLines td ac isArticle author := by
  have helse : "## TLDR" ∉
      (if td.text ≠ "" then [td.text]
       else if td.cardText ≠ "" then [td.cardText]
       else if td.fallbackText ≠ "" then [ stripArticleMetadataPrefix td.fallbackText "" author]
       else []) := by
    intro hmem
    by_cases ht : td.text ≠ ""
    · rw [if_pos ht] at hmem
      simp at hmem
      exact h1 hmem.symm
    · rw [if_neg ht] at hmem
      by_cases hc : td.cardText ≠ ""
      · rw [if_pos hc] at hmem
        simp at hmem
        exact h2 hmem.symm
      · rw [if_neg hc] at hmem
        by_cases hf : td.fallbackText ≠ ""
        · rw [if_pos hf] at hmem
          simp at hmem
          exact h3 hmem.symm
        · rw [if_neg hf] at hmem
          simp at hmem
  unfold origMainLines
  cases isArticle with
  | false => exact helse
  | true =>
    cases hac : ac with
    | none => exact helse
    | some c =>
      intro hmem
      rcases List.mem_append.1 hmem with h | h
      · by_cases hct : c.title = ""
        · rw [if_pos hct] at h
          simp at h
        · rw [if_neg hct] at h
          simp only [List.mem_cons, List.mem_singleton] at h
          rcases h with h | h
          · exact subsection_line_ne_tldr c.title h.symm
          · exact absurd h (by decide)
      · simp at h
        exact h4 c hac h.symm

theorem quoted_header_ne_tldr (x : String) :
    "### Quoted Content (by " ++ x ≠ "## TLDR" := by
  intro h
  have hd := congrArg String.data h
  simp at hd

theorem ref_item_ne_tldr (u : String) :
    "- [" ++ escapeMarkdownLinkText u ++ "](" ++ escapeMarkdownLinkUrl u ++ ")"
      ≠ "## TLDR" := by
  intro h
  have hd := congrArg String.data h
  simp at hd

theorem tldr_not_in_origSection (td : TweetData) (ac qc : Option FetchedContent)
    (isArticle : Bool) (author : String)
    (h1 : td.text ≠ "## TLDR") (h2 : td.cardText ≠ "## TLDR")
    (h3 : stripArticleMetadataPrefix td.fallbackText "" author ≠ "## TLDR")
    (h4 : ∀ c, ac = some c →
      stripArticleMetadataPrefix c.body c.title author ≠ "## TLDR")
    (h5 : td.quotedText ≠ "## TLDR")
    (h6 : ∀ c, qc = some c → c.body ≠ "## TLDR") :
    "## TLDR" ∉ origSectionLines td ac qc isArticle author := by
  unfold origSectionLines
  intro hmem
  simp only [List.mem_append] at hmem
  rcases hmem with ((((h | h) | h) | h) | h) | h
  · simp at h
  · exact tldr_not_in_origMain td ac isArticle author h1 h2 h3 h4 h
  · simp at h
  · have hq : ∀ qb : String, qb ≠ "## TLDR" →
        "## TLDR" ∉ (if qb = "" then ([] : List String)
          else ["### Quoted Content (by " ++ jsOr td.quotedAuthor "unknown" ++ ")", "",
                qb, ""]) := by
      intro qb hqb hm
      by_cases hq0 : qb = ""
      · rw [if_pos hq0] at hm
        simp at hm
      · rw [if_neg hq0] at hm
        simp only [List.mem_cons, List.mem_singleton] at hm
        rcases hm with hm | hm | hm | hm
        · exact quoted_header_ne_tldr (jsOr td.quotedAuthor "unknown" ++ ")") (by
            have := hm.symm
            rwa [String.append_assoc] at this)
        · exact absurd hm (by decide)
        · exact hqb hm.symm
        · exact absurd hm (by decide)
    have hqb : quotedBodyOf td qc ≠ "## TLDR" := by
      unfold quotedBodyOf
      cases hqc : qc with
      | none => exact h5
      | some c =>
        show (if c.body = "" then td.quotedText else c.body) ≠ "## TLDR"
        by_cases hb : c.body = ""
        · rw [if_pos hb]; exact h5
        · rw [if_neg hb]; exact h6 c hqc
    exact hq _ hqb h
  · by_cases hcard : ¬ isArticle = true ∧ td.text ≠ "" ∧ td.cardText ≠ ""
    · rw [if_pos hcard] at h
      simp only [List.mem_cons, List.mem_singleton] at h
      rcases h with h | h | h | h
      · exact absurd h (by decide)
      · exact absurd h (by decide)
      · exact h2 h.symm
      · exact absurd h (by decide)
    · rw [if_neg hcard] at h
      simp at h
  · by_cases href : td.referencedUrls ≠ []
    · rw [if_pos href] at h
      simp only [List.mem_append, List.mem_cons, List.mem_singleton] at h
      rcases h with (h | h) | h
      · rcases h with h | h
        · exact absurd h (by decide)
        · simp at h
      · rcases List.mem_map.1 (by simpa using h) with ⟨u, _, hu⟩
        exact ref_item_ne_tldr u hu
      · simp at h
    · rw [if_neg href] at h
      simp at h

theorem mdLines_raw_eq (td : TweetData) (tldr : String) (ac qc : Option FetchedContent)
    (isArticle : Bool) (d : JsDate) :
    buildMarkdownLines td tldr ac qc isArticle "raw" d =
      ["# " ++ mdTitleOf ac isArticle (jsOr td.author "unknown"), ""]
      ++ ["> **Author**: " ++ jsOr td.author "unknown",
          "> **Source**: " ++ jsOr td.tweetUrl td.url,
          "> **Date**: " ++ dateStrOf d]
      ++ (match td.metrics with | some m => [metricsLine m] | none => [])
      ++ ["", "---", ""]
      ++ origSectionLines td ac qc isArticle (jsOr td.author "unknown") := by
  unfold buildMarkdownLines
  simp

theorem tldr_not_in_mdLines (td : TweetData) (tldr : String) (ac qc : Option FetchedContent)
    (isArticle : Bool) (d : JsDate)
    (h1 : td.text ≠ "## TLDR") (h2 : td.cardText ≠ "## TLDR")
    (h3 : stripArticleMetadataPrefix td.fallbackText "" (jsOr td.author "unknown") ≠ "## TLDR")
    (h4 : ∀ c, ac = some c →
      stripArticleMetadataPrefix c.body c.title (jsOr td.author "unknown") ≠ "## TLDR")
    (h5 : td.quotedText ≠ "## TLDR")
    (h6 : ∀ c, qc = some c → c.body ≠ "## TLDR") :
    "## TLDR" ∉ buildMarkdownLines td tldr ac qc isArticle "raw" d := by
  rw [mdLines_raw_eq]
  intro hmem
  simp only [List.mem_append] at hmem
  rcases hmem with (((h | h) | h) | h) | h
  · simp only [List.mem_cons, List.not_mem_nil, or_false] at h
    rcases h with h | h
    · exact title_line_ne_tldr _ h.symm
    · exact absurd h (by decide)
  · simp only [List.mem_cons, List.not_mem_nil, or_false] at h
    rcases h with h | h | h
    · exact quote_line_ne_tldr "> **Author**: " _ rfl h.symm
    · exact quote_line_ne_tldr "> **Source**: " _ rfl h.symm
    · exact quote_line_ne_tldr "> **Date**: " _ rfl h.symm
  · revert h
    cases td.metrics with
    | none => intro h; simp at h
    | some m =>
      intro h
      simp only [List.mem_cons, List.not_mem_nil, or_false] at h
      exact metricsLine_ne_tldr m h.symm
  · simp at h
  · exact tldr_not_in_origSection td ac qc isArticle (jsOr td.author "unknown")
      h1 h2 h3 h4 h5 h6 h

theorem origContent_mem_mdLines (td : TweetData) (tldr : String)
    (ac qc : Option FetchedContent) (isArticle : Bool) (d : JsDate) :
    "## Original Content" ∈ buildMarkdownLines td tldr ac qc isArticle "raw" d := by
  rw [mdLines_raw_eq]
  refine List.mem_append.2 (Or.inr ?_)
  unfold origSectionLines
  simp

theorem mem_mdLines_of_mem_origSection (x : String) (td : TweetData) (tldr : String)
    (ac qc : Option FetchedContent) (isArticle : Bool) (d : JsDate)
    (h : x ∈ origSectionLines td ac qc isArticle (jsOr td.author "unknown")) :
    x ∈ buildMarkdownLines td tldr ac qc isArticle "raw" d := by
  rw [mdLines_raw_eq]
  exact List.mem_append.2 (Or.inr h)

theorem text_mem_origMain (td : TweetData) (ac : Option FetchedContent) (author : String)
    (ht : td.text ≠ "") :
    td.text ∈ origMainLines td ac false author := by
  unfold origMainLines
  rw [if_pos ht]
  simp

theorem strip_mem_origMain (td : TweetData) (c : FetchedContent) (author : String) :
    stripArticleMetadataPrefix c.body c.title author ∈ origMainLines td (some c) true author := by
  unfold origMainLines
  exact List.mem_append.2 (Or.inr (by simp))

theorem mem_origSection_of_mem_origMain (x : String) (td : TweetData)
    (ac qc : Option FetchedContent) (isArticle : Bool) (author : String)
    (h : x ∈ origMainLines td ac isArticle author) :
    x ∈ origSectionLines td ac qc isArticle author := by
  unfold origSectionLines
  exact List.mem_append.2 (Or.inl (List.mem_append.2 (Or.inl (List.mem_append.2 (Or.inl
    (List.mem_append.2 (Or.inl (List.mem_append.2 (Or.inr h)))))))))

theorem fetchPageContent_trace (env : Env) (u : String) :
    ∀ e ∈ (fetchPageContent env u).2, ∃ v, e = Effect.createTab v := by
  intro e he
  unfold fetchPageContent at he
  by_cases h : isAllowedFetchUrl u = false
  · rw [if_pos h] at he
    simp at he
  · rw [if_neg h] at he
    simp at he
    exact ⟨u, he⟩

theorem handleTLDR_ai_off_trace (env : Env) (s : Settings) (td : TweetData)
    (aUrl qUrl : Option String) (hAI : s.aiEnabled = false) :
    ∀ e ∈ (handleTLDRRequest env s td aUrl qUrl).2, ∃ v, e = Effect.createTab v := by
  intro e he
  unfold handleTLDRRequest at he
  rw [if_pos hAI] at he
  rcases List.mem_append.1 he with h | h
  · cases aUrl with
    | none => simp at h
    | some ua => exact fetchPageContent_trace env ua e h
  · cases qUrl with
    | none => simp at h
    | some uq =>
      have h' : e ∈ (if td.quotedText.length < 500 then fetchPageContent env uq
          else (none, [])).2 := h
      by_cases hlen : td.quotedText.length < 500
      · rw [if_pos hlen] at h'
        exact fetchPageContent_trace env uq e h'
      · rw [if_neg hlen] at h'
        simp at h'

theorem handleTLDR_ai_off (env : Env) (s : Settings) (td : TweetData)
    (aUrl qUrl : Option String) (hAI : s.aiEnabled = false) :
    ∃ r : TldrResult, (handleTLDRRequest env s td aUrl qUrl).1 = Except.ok r ∧
      r.tldr = "" ∧ r.mode = "raw" := by
  unfold handleTLDRRequest
  rw [if_pos hAI]
  exact ⟨_, rfl, rfl, rfl⟩

/-- C1: when the AI-enabled setting is false, `handleTLDRRequest`
returns an `ok` result with `mode = "raw"` and `tldr = ""`, and its
effect trace contains no credential resolution, no prompt building and
no provider call (only background-tab fetches); and every markdown
document built in `raw` mode has no `## TLDR` section line (provided no
verbatim input field is itself the string `"## TLDR"`), contains the
`## Original Content` section header, and contains the raw post text
(the plain tweet text for a non-article, the metadata-stripped article
body for an article). -/
theorem c1_ai_disabled_raw :
    (∀ (env : Env) (s : Settings) (td : TweetData) (aUrl qUrl : Option String),
      s.aiEnabled = false →
      (∃ r, (handleTLDRRequest env s td aUrl qUrl).1 = Except.ok r ∧
        r.tldr = "" ∧ r.mode = "raw") ∧
      Effect.resolveCredential ∉ (handleTLDRRequest env s td aUrl qUrl).2 ∧
      Effect.buildPromptStep ∉ (handleTLDRRequest env s td aUrl qUrl).2 ∧
      Effect.callProvider ∉ (handleTLDRRequest env s td aUrl qUrl).2) ∧
    (∀ (td : TweetData) (tldr : String) (ac qc : Option FetchedContent)
        (isArticle : Bool) (d : JsDate),
      td.text ≠ "## TLDR" → td.cardText ≠ "## TLDR" →
      stripArticleMetadataPrefix td.fallbackText "" (jsOr td.author "unknown") ≠ "## TLDR" →
      (∀ c, ac = some c →
        stripArticleMetadataPrefix c.body c.title (jsOr td.author "unknown") ≠ "## TLDR") →
      td.quotedText ≠ "## TLDR" →
      (∀ c, qc = some c → c.body ≠ "## TLDR") →
      "## TLDR" ∉ buildMarkdownLines td tldr ac qc isArticle "raw" d ∧
      "## Original Content" ∈ buildMarkdownLines td tldr ac qc isArticle "raw" d ∧
      (isArticle = false → td.text ≠ "" →
        td.text ∈ buildMarkdownLines td tldr ac qc isArticle "raw" d) ∧
      (∀ c, ac = some c →
        stripArticleMetadataPrefix c.body c.title (jsOr td.author "unknown")
          ∈ buildMarkdownLines td tldr ac qc true "raw" d)) := by
  constructor
  · intro env s td aUrl qUrl hAI
    refine ⟨handleTLDR_ai_off env s td aUrl qUrl hAI, ?_, ?_, ?_⟩
    · intro hmem
      rcases handleTLDR_ai_off_trace env s td aUrl qUrl hAI _ hmem with ⟨v, hv⟩
      exact Effect.noConfusion hv
    · intro hmem
      rcases handleTLDR_ai_off_trace env s td aUrl qUrl hAI _ hmem with ⟨v, hv⟩
      exact Effect.noConfusion hv
    · intro hmem
      rcases handleTLDR_ai_off_trace env s td aUrl qUrl hAI _ hmem with ⟨v, hv⟩
      exact Effect.noConfusion hv
  · intro td tldr ac qc isArticle d h1 h2 h3 h4 h5 h6
    refine ⟨tldr_not_in_mdLines td tldr ac qc isArticle d h1 h2 h3 h4 h5 h6,
      origContent_mem_mdLines td tldr ac qc isArticle d, ?_, ?_⟩
    · intro hart ht
      subst hart
      exact mem_mdLines_of_mem_origSection _ td tldr ac qc false d
        (mem_origSection_of_mem_origMain _ td ac qc false _
          (text_mem_origMain td ac _ ht))
    · intro c hac
      subst hac
      exact mem_mdLines_of_mem_origSection _ td tldr (some c) qc true d
        (mem_origSection_of_mem_origMain _ td (some c) qc true _
          (strip_mem_origMain td c _))

/-- C1 witness: AI disabled at a concrete request, and a concrete raw
markdown build. -/
theorem c1_ai_disabled_raw_witness :
    (∃ r, (handleTLDRRequest envNull settingsAiOff tdW none none).1 = Except.ok r ∧
      r.tldr = "" ∧ r.mode = "raw") ∧
    "## Original Content" ∈ buildMarkdownLines tdW "" none none false "raw" dateW :=
  ⟨(c1_ai_disabled_raw.1 envNull settingsAiOff tdW none none rfl).1,
   (c1_ai_disabled_raw.2 tdW "" none none false dateW (by decide) (by decide) (by decide)
      (fun c h => absurd h (by simp)) (by decide) (fun c h => absurd h (by simp))).2.1⟩

/-- C3 counterexample: the claim as stated fails on the code.  In
`envC3fail` the native-host tier is attempted and fails (the host
answers `success: false`), the content-script tier then succeeds — and
the resulting `lastSave` record is a success with `method
'content-script'` and no error: the native tier's persistence failure is
recorded nowhere in the `lastSave` diagnostic record (the code only
`console.log`s it and falls through). -/
theorem c3_save_tiers_cex :
    (writeViaNativeHost envC3fail
      (buildMarkdownContent tdW "" none none false "tldr" envC3fail.date)
      (buildFileName tdW none false envC3fail.date)).1 = false ∧
    (saveMarkdownFile envC3fail tdW "" none none false "tldr").1
      = [Tier.native, Tier.contentScript] ∧
    ((saveMarkdownFile envC3fail tdW "" none none false "tldr").2.map
      (fun r => (r.success, r.method, r.error)))
      = some (true, some "content-script", none) := by
  refine ⟨rfl, ?_, ?_⟩ <;> decide

/-- C3 amended: `saveMarkdownFile` attempts the tiers in order (native
host, then — only when a sender tab exists — the content-script
download, then the downloads API), stopping at the first tier that
succeeds; an intermediate tier's failure is not itself recorded — it
silently falls through to the next tier — and the terminal outcome is
what reaches `lastSave`: a success record from the succeeding tier, a
failure record when the final download is interrupted, or a failure
record written by the catch block when the downloads call throws; no
error ever propagates to the caller (the function is total and the
thrown error surfaces only as the recorded `lastSave`). -/
theorem c3_save_tiers_amended (env : SaveEnv) (td : TweetData) (tldr : String)
    (ac qc : Option FetchedContent) (isArticle : Bool) (mode : String)
    (md fn : String) (p : List Tier × Option SaveOutcome)
    (hmd : md = buildMarkdownContent td tldr ac qc isArticle mode env.date)
    (hfn : fn = buildFileName td ac isArticle env.date)
    (hp : p = saveMarkdownFile env td tldr ac qc isArticle mode) :
    (p.1 = [Tier.native] ∨ p.1 = [Tier.native, Tier.contentScript] ∨
     p.1 = [Tier.native, Tier.downloads] ∨
     p.1 = [Tier.native, Tier.contentScript, Tier.downloads]) ∧
    ((writeViaNativeHost env md fn).1 = true →
      p = ([Tier.native], (writeViaNativeHost env md fn).2)) ∧
    ((writeViaNativeHost env md fn).1 = false → env.senderTabId.isSome = true →
      (writeViaContentScript env md fn).1 = true →
      p = ([Tier.native, Tier.contentScript], (writeViaContentScript env md fn).2)) ∧
    ((writeViaNativeHost env md fn).1 = false →
      (env.senderTabId.isSome = false ∨ (writeViaContentScript env md fn).1 = false) →
      ∀ e, env.downloadStart = Except.error e → p.2 = some (catchRecord env.now e)) ∧
    ((writeViaNativeHost env md fn).1 = false →
      (env.senderTabId.isSome = false ∨ (writeViaContentScript env md fn).1 = false) →
      ∀ i, env.downloadStart = Except.ok i → env.downloadState = DlState.interrupted →
        p.2 = some { timestamp := env.now, success := false, method := some "downloads"
                     path := none, error := some "download interrupted" }) := by
  subst hmd
  subst hfn
  subst hp
  simp only [saveMarkdownFile]
  by_cases hn : (writeViaNativeHost env
      (buildMarkdownContent td tldr ac qc isArticle mode env.date)
      (buildFileName td ac isArticle env.date)).1 = true
  · rw [if_pos hn]
    refine ⟨Or.inl rfl, fun _ => rfl, ?_, ?_, ?_⟩
    · intro hfl
      rw [hn] at hfl
      exact absurd hfl (by simp)
    · intro hfl
      rw [hn] at hfl
      exact absurd hfl (by simp)
    · intro hfl
      rw [hn] at hfl
      exact absurd hfl (by simp)
  · rw [if_neg hn]
    have hnf : (writeViaNativeHost env
        (buildMarkdownContent td tldr ac qc isArticle mode env.date)
        (buildFileName td ac isArticle env.date)).1 = false := by
      revert hn
      cases (writeViaNativeHost env
        (buildMarkdownContent td tldr ac qc isArticle mode env.date)
        (buildFileName td ac isArticle env.date)).1 <;> simp
    by_cases hst : env.senderTabId.isSome = true
    · rw [if_pos hst]
      by_cases hcs : (writeViaContentScript env
          (buildMarkdownContent td tldr ac qc isArticle mode env.date)
          (buildFileName td ac isArticle env.date)).1 = true
      · rw [if_pos hcs]
        refine ⟨Or.inr (Or.inl rfl), ?_, fun _ _ _ => rfl, ?_, ?_⟩
        · intro ht
          rw [hnf] at ht
          exact absurd ht (by simp)
        · intro _ hor e hde
          rcases hor with h | h
          · rw [hst] at h
            exact absurd h (by simp)
          · rw [hcs] at h
            exact absurd h (by simp)
        · intro _ hor i hdi hint
          rcases hor with h | h
          · rw [hst] at h
            exact absurd h (by simp)
          · rw [hcs] at h
            exact absurd h (by simp)
      · rw [if_neg hcs]
        refine ⟨Or.inr (Or.inr (Or.inr rfl)), ?_, ?_, ?_, ?_⟩
        · intro ht
          rw [hnf] at ht
          exact absurd ht (by simp)
        · intro _ _ ht
          rw [ht] at hcs
          exact absurd rfl hcs
        · intro _ _ e hde
          show (downloadsTier env _ _) = some (catchRecord env.now e)
          unfold downloadsTier writeViaDownloads
          rw [hde]
        · intro _ _ i hdi hint
          show (downloadsTier env _ _) = some _
          unfold downloadsTier writeViaDownloads
          rw [hdi, hint]
    · rw [if_neg hst]
      have hstf : env.senderTabId.isSome = false := by
        revert hst
        cases env.senderTabId.isSome <;> simp
      refine ⟨Or.inr (Or.inr (Or.inl rfl)), ?_, ?_, ?_, ?_⟩
      · intro ht
        rw [hnf] at ht
        exact absurd ht (by simp)
      · intro _ ht
        rw [ht] at hstf
        exact absurd hstf (by simp)
      · intro _ _ e hde
        show (downloadsTier env _ _) = some (catchRecord env.now e)
        unfold downloadsTier writeViaDownloads
        rw [hde]
      · intro _ _ i hdi hint
        show (downloadsTier env _ _) = some _
        unfold downloadsTier writeViaDownloads
        rw [hdi, hint]

/-- C3 witness: first tier succeeds in `envC3ok` and is the only one
attempted, with its success recorded. -/
theorem c3_save_tiers_amended_witness :
    saveMarkdownFile envC3ok tdW "" none none false "tldr"
      = ([Tier.native],
         (writeViaNativeHost envC3ok
           (buildMarkdownContent tdW "" none none false "tldr" envC3ok.date)
           (buildFileName tdW none false envC3ok.date)).2) :=
  (c3_save_tiers_amended envC3ok tdW "" none none false "tldr" _ _ _ rfl rfl rfl).2.1 rfl

/-! ### C5 helper lemmas: character safety of the sanitization chain -/

theorem fsReplace_ctrlStrip_good (l : List Char) :
    ∀ c ∈ fsReplaceL (ctrlStripL l), isFsUnsafeChar c = false ∧ isCtrlChar c = false := by
  intro c hc
  rcases List.mem_map.1 hc with ⟨a, ha, hfa⟩
  have hactrl : isCtrlChar a = false := by
    have := (List.mem_filter.1 ha).2
    simpa using this
  by_cases hu : isFsUnsafeChar a = true
  · rw [if_pos hu] at hfa
    subst hfa
    exact ⟨by decide, by decide⟩
  · rw [if_neg hu] at hfa
    subst hfa
    exact ⟨by simpa using hu, hactrl⟩

theorem stripLeadingDots_subset (l : List Char) : ∀ c ∈ stripLeadingDots l, c ∈ l :=
  fun _ hc => (List.dropWhile_sublist _).subset hc

theorem jsTrimL_subset (l : List Char) : ∀ c ∈ jsTrimL l, c ∈ l := by
  intro c hc
  unfold jsTrimL at hc
  exact (List.dropWhile_sublist _).subset ((List.rdropWhile_prefix _ _).subset hc)

theorem safeHandleOf_good (h : String) :
    ∀ c ∈ safeHandleOf h, isFsUnsafeChar c = false ∧ isCtrlChar c = false := by
  intro c hc
  unfold safeHandleOf at hc
  exact fsReplace_ctrlStrip_good h.toList c
    (stripLeadingDots_subset _ c (jsTrimL_subset _ c (List.take_subset _ _ hc)))

theorem sanitizedTitleOf_good (t : String) :
    ∀ c ∈ sanitizedTitleOf t, isFsUnsafeChar c = false ∧ isCtrlChar c = false := by
  intro c hc
  unfold sanitizedTitleOf at hc
  exact fsReplace_ctrlStrip_good (nlRunsToSpace false t.toList) c
    (stripLeadingDots_subset _ c (jsTrimL_subset _ c hc))

theorem safeTitleOf_good (t : String) :
    ∀ c ∈ safeTitleOf t, isFsUnsafeChar c = false ∧ isCtrlChar c = false := by
  intro c hc
  unfold safeTitleOf at hc
  by_cases hlen : 50 < t.length
  · rw [if_pos hlen] at hc
    by_cases hls : 20 < lastSpaceIdx ((sanitizedTitleOf t).take 50)
    · rw [if_pos hls] at hc
      exact sanitizedTitleOf_good t c
        (List.take_subset _ _ (List.take_subset _ _ hc))
    · rw [if_neg hls] at hc
      exact sanitizedTitleOf_good t c (List.take_subset _ _ hc)
  · rw [if_neg hlen] at hc
    exact sanitizedTitleOf_good t c (List.take_subset _ _ hc)

theorem digitChar_good : ∀ m, m < 10 →
    isFsUnsafeChar (Nat.digitChar m) = false ∧ isCtrlChar (Nat.digitChar m) = false := by
  decide

theorem toDigitsCore_good : ∀ (fuel n : Nat) (ds : List Char),
    (∀ c ∈ ds, isFsUnsafeChar c = false ∧ isCtrlChar c = false) →
    ∀ c ∈ Nat.toDigitsCore 10 fuel n ds,
      isFsUnsafeChar c = false ∧ isCtrlChar c = false := by
  intro fuel
  induction fuel with
  | zero => intro n ds hds c hc; exact hds c hc
  | succ f ih =>
    intro n ds hds c hc
    unfold Nat.toDigitsCore at hc
    have hd : ∀ x ∈ Nat.digitChar (n % 10) :: ds,
        isFsUnsafeChar x = false ∧ isCtrlChar x = false := by
      intro x hx
      rcases List.mem_cons.1 hx with hx | hx
      · subst hx
        exact digitChar_good _ (Nat.mod_lt _ (by omega))
      · exact hds x hx
    by_cases hz : n / 10 = 0
    · rw [if_pos hz] at hc
      exact hd c hc
    · rw [if_neg hz] at hc
      exact ih (n / 10) _ hd c hc

theorem natRepr_good (n : Nat) :
    ∀ c ∈ (Nat.repr n).toList, isFsUnsafeChar c = false ∧ isCtrlChar c = false := by
  intro c hc
  have : (Nat.repr n).toList = Nat.toDigitsCore 10 (n + 1) n [] := rfl
  rw [this] at hc
  exact toDigitsCore_good (n + 1) n [] (by simp) c hc

theorem pad2_good (n : Nat) :
    ∀ c ∈ (pad2 n).toList, isFsUnsafeChar c = false ∧ isCtrlChar c = false := by
  intro c hc
  unfold pad2 at hc
  by_cases h : (Nat.repr n).length < 2
  · rw [if_pos h] at hc
    rcases List.mem_append.1 hc with h0 | h0
    · simp at h0
      subst h0
      exact ⟨by decide, by decide⟩
    · exact natRepr_good n c h0
  · rw [if_neg h] at hc
    exact natRepr_good n c hc

theorem timeStampOf_good (d : JsDate) :
    ∀ c ∈ (timeStampOf d).toList, isFsUnsafeChar c = false ∧ isCtrlChar c = false := by
  intro c hc
  unfold timeStampOf at hc
  simp only [String.toList, String.data_append] at hc
  rcases List.mem_append.1 hc with h | h
  rotate_left
  · exact pad2_good _ c h
  rcases List.mem_append.1 h with h | h
  rotate_left
  · exact pad2_good _ c h
  rcases List.mem_append.1 h with h | h
  rotate_left
  · exact pad2_good _ c h
  rcases List.mem_append.1 h with h | h
  rotate_left
  · simp at h
    subst h
    exact ⟨by decide, by decide⟩
  rcases List.mem_append.1 h with h | h
  rotate_left
  · exact pad2_good _ c h
  rcases List.mem_append.1 h with h | h
  · exact natRepr_good _ c h
  · exact pad2_good _ c h

/-! ### C5 helper lemmas: the filename never starts with a dot -/

theorem ws_toNat_le (c : Char) (h : isWsChar c = true) : c.toNat ≤ 32 := by
  unfold isWsChar at h
  simp at h
  rcases h with h | h | h | h <;> subst h <;> decide

theorem hexDigitU_not_ws : ∀ m, m < 16 → isWsChar (hexDigitU m) = false := by decide

theorem encodePathChar_no_ws (a : Char) : ∀ c ∈ encodePathChar a, isWsChar c = false := by
  intro c hc
  unfold encodePathChar at hc
  by_cases h : a.toNat ≤ 32 ∨ a.toNat = 127
  · rw [if_pos h] at hc
    unfold hexByteU at hc
    simp only [List.mem_cons, List.not_mem_nil, or_false] at hc
    rcases hc with hc | hc | hc
    · subst hc; decide
    · subst hc
      exact hexDigitU_not_ws _ (by omega)
    · subst hc
      exact hexDigitU_not_ws _ (Nat.mod_lt _ (by omega))
  · rw [if_neg h] at hc
    simp at hc
    subst hc
    push_neg at h
    cases hw : isWsChar c with
    | false => rfl
    | true => exact absurd (ws_toNat_le c hw) (by omega)

theorem parseUrl_pathname_no_ws (url : String) (p : ParsedUrl) (hp : parseUrl url = some p) :
    ∀ c ∈ p.pathname.toList, isWsChar c = false := by
  unfold parseUrl at hp
  cases hb : breakOnSub "://".toList url.toList with
  | none =>
    rw [hb] at hp
    exact absurd hp (by simp)
  | some pr =>
    obtain ⟨scheme, rest⟩ := pr
    simp only [hb] at hp
    by_cases hs : scheme.isEmpty = true
    · rw [if_pos hs] at hp
      exact absurd hp (by simp)
    · rw [if_neg hs] at hp
      by_cases hauth : (rest.takeWhile (fun c => ¬ isHostEnd c)).isEmpty = true
      · rw [if_pos hauth] at hp
        exact absurd hp (by simp)
      · rw [if_neg hauth] at hp
        injection hp with hX
        subst hX
        intro c hc
        simp only [String.toList] at hc
        rcases List.mem_cons.1 hc with hc | hc
        · subst hc; decide
        · rcases List.mem_flatten.1 hc with ⟨blk, hblk, hcb⟩
          rcases List.mem_map.1 hblk with ⟨a, _, hfa⟩
          subst hfa
          exact encodePathChar_no_ws a c hcb

theorem splitCharL_sub (sep : Char) : ∀ (l seg : List Char),
    seg ∈ splitCharL sep l → ∀ c ∈ seg, c ∈ l := by
  intro l
  induction l with
  | nil =>
    intro seg hseg c hc
    simp [splitCharL] at hseg
    subst hseg
    simp at hc
  | cons a rest ih =>
    intro seg hseg c hc
    unfold splitCharL at hseg
    by_cases ha : a = sep
    · rw [if_pos ha] at hseg
      rcases List.mem_cons.1 hseg with h | h
      · subst h; simp at hc
      · exact List.mem_cons_of_mem a (ih seg h c hc)
    · rw [if_neg ha] at hseg
      cases hsp : splitCharL sep rest with
      | nil =>
        rw [hsp] at hseg
        simp at hseg
        subst hseg
        simp at hc
        rw [hc]
        exact List.mem_cons_self _ _
      | cons h0 t0 =>
        rw [hsp] at hseg
        rcases List.mem_cons.1 hseg with h | h
        · subst h
          rcases List.mem_cons.1 hc with h | h
          · rw [h]
            exact List.mem_cons_self _ _
          · exact List.mem_cons_of_mem a
              (ih h0 (hsp ▸ List.mem_cons_self h0 t0) c h)
        · exact List.mem_cons_of_mem a
            (ih seg (hsp ▸ List.mem_cons_of_mem h0 h) c hc)

theorem handleOf_no_ws (u : String) : ∀ c ∈ (handleOf u).toList, isWsChar c = false := by
  have hunk : ∀ x ∈ ("unknown" : String).toList, isWsChar x = false := by decide
  intro c hc
  simp only [handleOf] at hc
  cases hp : parseUrl u with
  | none =>
    simp only [hp] at hc
    exact hunk c hc
  | some p =>
    simp only [hp] at hc
    cases hg : (splitCharL '/' p.pathname.toList).get? 1 with
    | none =>
      simp only [hg] at hc
      exact hunk c hc
    | some seg =>
      simp only [hg] at hc
      by_cases hseg : seg = []
      · rw [if_pos hseg] at hc
        exact hunk c hc
      · rw [if_neg hseg] at hc
        exact parseUrl_pathname_no_ws u p hp c
          (splitCharL_sub '/' p.pathname.toList seg (List.get?_mem hg) c hc)

theorem dropWhile_eq_self_of_none (p : Char → Bool) (l : List Char)
    (h : ∀ c ∈ l, p c = false) : l.dropWhile p = l := by
  cases l with
  | nil => rfl
  | cons c t =>
    rw [List.dropWhile_cons, if_neg (by simp [h c (List.mem_cons_self c t)])]

theorem rdropWhile_eq_self_of_none (p : Char → Bool) (l : List Char)
    (h : ∀ c ∈ l, p c = false) : l.rdropWhile p = l :=
  List.rdropWhile_eq_self_iff.mpr (fun hl => by simp [h _ (List.getLast_mem hl)])

theorem jsTrimL_eq_self_of_none (l : List Char)
    (h : ∀ c ∈ l, isWsChar c = false) : jsTrimL l = l := by
  unfold jsTrimL
  rw [dropWhile_eq_self_of_none _ _ h, rdropWhile_eq_self_of_none _ _ h]

theorem fsReplace_ctrlStrip_no_ws (l : List Char) (h : ∀ c ∈ l, isWsChar c = false) :
    ∀ c ∈ fsReplaceL (ctrlStripL l), isWsChar c = false := by
  intro c hc
  rcases List.mem_map.1 hc with ⟨a, ha, hfa⟩
  by_cases hu : isFsUnsafeChar a = true
  · rw [if_pos hu] at hfa
    subst hfa
    decide
  · rw [if_neg hu] at hfa
    subst hfa
    exact h a ((List.filter_sublist _).subset ha)

theorem head?_dropWhile_false (p : Char → Bool) (l : List Char) (c : Char)
    (h : (l.dropWhile p).head? = some c) : p c = false := by
  have hm := List.head?_dropWhile_not p l
  rw [h] at hm
  exact hm

theorem head?_take_pos (l : List Char) (n : Nat) (h : 0 < n) :
    (l.take n).head? = l.head? := by
  cases l with
  | nil => simp
  | cons c t =>
    cases n with
    | zero => omega
    | succ m => simp

theorem safeHandleOf_head_not_dot (h : String)
    (hws : ∀ c ∈ h.toList, isWsChar c = false) :
    (safeHandleOf h).head? ≠ some '.' := by
  unfold safeHandleOf
  intro hc
  rw [head?_take_pos _ 30 (by omega)] at hc
  have hnws : ∀ c ∈ stripLeadingDots (fsReplaceL (ctrlStripL h.toList)), isWsChar c = false :=
    fun c hcm => fsReplace_ctrlStrip_no_ws h.toList hws c (stripLeadingDots_subset _ c hcm)
  rw [jsTrimL_eq_self_of_none _ hnws] at hc
  have := head?_dropWhile_false _ _ _ hc
  simp at this

theorem safeTitleOrDefault_good (t : String) :
    ∀ c ∈ (if safeTitleOf t = [] then "untitled".toList else safeTitleOf t),
      isFsUnsafeChar c = false ∧ isCtrlChar c = false := by
  have hu : ∀ x ∈ ("untitled" : String).toList,
      isFsUnsafeChar x = false ∧ isCtrlChar x = false := by decide
  intro c hc
  by_cases hB : safeTitleOf t = []
  · rw [if_pos hB] at hc
    exact hu c hc
  · rw [if_neg hB] at hc
    exact safeTitleOf_good t c hc

/-- C5: for every input record, article content and wall clock, the
filename returned by `buildFileName` contains none of the characters
`\\ / : * ? " < > |`, contains no control characters
(U+0000–U+001F, U+007F), and never starts with `.`. -/
theorem c5_filename_sanitized (td : TweetData) (ac : Option FetchedContent)
    (isArticle : Bool) (d : JsDate) :
    (∀ c ∈ (buildFileName td ac isArticle d).toList,
      isFsUnsafeChar c = false ∧ isCtrlChar c = false) ∧
    (buildFileName td ac isArticle d).toList.head? ≠ some '.' := by
  have hmd : ∀ x ∈ (".md" : String).toList,
      isFsUnsafeChar x = false ∧ isCtrlChar x = false := by decide
  simp only [buildFileName]
  constructor
  · intro c hc
    simp only [String.toList] at hc
    rcases List.mem_append.1 hc with h | h
    · rcases List.mem_append.1 h with h | h
      · rcases List.mem_append.1 h with h | h
        · exact safeHandleOf_good _ c h
        · rcases List.mem_cons.1 h with h | h
          · subst h
            exact ⟨by decide, by decide⟩
          · exact safeTitleOrDefault_good _ c h
      · rcases List.mem_cons.1 h with h | h
        · subst h
          exact ⟨by decide, by decide⟩
        · exact timeStampOf_good d c h
    · exact hmd c h
  · intro hc
    simp only [String.toList] at hc
    rw [List.head?_append, List.head?_append, List.head?_append] at hc
    cases hA : (safeHandleOf (handleOf (jsOr td.tweetUrl td.url))).head? with
    | none =>
      rw [hA] at hc
      simp at hc
    | some x =>
      rw [hA] at hc
      simp at hc
      subst hc
      exact safeHandleOf_head_not_dot _ (handleOf_no_ws _) hA

/-! ### C7: metadata-prefix stripper -/


theorem splitCharL_ne_nil (sep : Char) (l : List Char) : splitCharL sep l ≠ [] := by
  induction l with
  | nil => simp [splitCharL]
  | cons c rest ih =>
    by_cases hc : c = sep
    · simp [splitCharL, hc]
    · simp only [splitCharL, if_neg hc]
      cases hs : splitCharL sep rest with
      | nil => exact absurd hs ih
      | cons h t => simp

theorem joinCharL_splitCharL (sep : Char) (l : List Char) :
    joinCharL sep (splitCharL sep l) = l := by
  induction l with
  | nil => rfl
  | cons c rest ih =>
    by_cases hc : c = sep
    · rw [show splitCharL sep (c :: rest) = [] :: splitCharL sep rest from by
        simp [splitCharL, hc]]
      cases hs : splitCharL sep rest with
      | nil => exact absurd hs (splitCharL_ne_nil sep rest)
      | cons h t =>
        rw [hs] at ih
        show sep :: joinCharL sep (h :: t) = c :: rest
        rw [ih, hc]
    · simp only [splitCharL, if_neg hc]
      cases hs : splitCharL sep rest with
      | nil => exact absurd hs (splitCharL_ne_nil sep rest)
      | cons h t =>
        rw [hs] at ih
        cases t with
        | nil =>
          show c :: h = c :: rest
          rw [show joinCharL sep [h] = h from rfl] at ih
          rw [ih]
        | cons t1 ts =>
          show c :: (h ++ sep :: joinCharL sep (t1 :: ts)) = c :: rest
          rw [show joinCharL sep (h :: t1 :: ts) = h ++ sep :: joinCharL sep (t1 :: ts) from rfl]
            at ih
          rw [ih]

theorem splitCharL_cons_head (sep : Char) (l : List Char) :
    ∃ t, splitCharL sep l = (l.takeWhile (neChar sep)) :: t := by
  induction l with
  | nil => exact ⟨[], rfl⟩
  | cons c rest ih =>
    by_cases hc : c = sep
    · refine ⟨splitCharL sep rest, ?_⟩
      simp [splitCharL, hc, neChar, List.takeWhile_cons]
    · obtain ⟨t, ht⟩ := ih
      refine ⟨t, ?_⟩
      simp only [splitCharL, if_neg hc, ht, List.takeWhile_cons, neChar]
      simp [hc]

theorem splitCharL_no_sep (sep : Char) (l : List Char) :
    ∀ seg ∈ splitCharL sep l, sep ∉ seg := by
  induction l with
  | nil =>
    intro seg hseg
    simp [splitCharL] at hseg
    subst hseg
    simp
  | cons c rest ih =>
    intro seg hseg
    by_cases hc : c = sep
    · rw [show splitCharL sep (c :: rest) = [] :: splitCharL sep rest from by
        simp [splitCharL, hc]] at hseg
      rcases List.mem_cons.1 hseg with h | h
      · subst h; simp
      · exact ih seg h
    · simp only [splitCharL, if_neg hc] at hseg
      cases hs : splitCharL sep rest with
      | nil => exact absurd hs (splitCharL_ne_nil sep rest)
      | cons h t =>
        rw [hs] at hseg
        rcases List.mem_cons.1 hseg with h1 | h1
        · subst h1
          intro hmem
          rcases List.mem_cons.1 hmem with h2 | h2
          · exact hc h2.symm
          · exact ih h (by rw [hs]; exact List.mem_cons_self _ _) h2
        · exact ih seg (by rw [hs]; exact List.mem_cons.2 (Or.inr h1))

theorem splitNl_ne_nil (s : String) : splitNl s ≠ [] := by
  unfold splitNl
  intro h
  exact splitCharL_ne_nil '\n' s.toList (by simpa using h)

theorem splitNl_cons (s : String) :
    ∃ hd t, splitNl s = hd :: t ∧ (splitNl s).headD "" = hd := by
  cases h : splitNl s with
  | nil => exact absurd h (splitNl_ne_nil s)
  | cons hd t => exact ⟨hd, t, rfl, by simp⟩

theorem splitNl_headD (s : String) :
    (splitNl s).headD "" = ⟨s.toList.takeWhile (neChar '\n')⟩ := by
  obtain ⟨t, ht⟩ := splitCharL_cons_head '\n' s.toList
  unfold splitNl
  rw [ht]
  rfl

theorem joinNl_splitNl (s : String) : joinNl (splitNl s) = s := by
  unfold joinNl splitNl
  rw [List.map_map]
  rw [show (String.toList ∘ fun l => (⟨l⟩ : String)) = id from funext fun l => rfl]
  rw [List.map_id, joinCharL_splitCharL]
  exact mk_toList s

theorem dropWhile_rdropWhile_self (p : Char → Bool) (l : List Char) :
    List.dropWhile p ((l.dropWhile p).rdropWhile p) = (l.dropWhile p).rdropWhile p := by
  cases hY : (l.dropWhile p).rdropWhile p with
  | nil => rfl
  | cons y ys =>
    have hpre := List.rdropWhile_prefix p (l.dropWhile p)
    rw [hY] at hpre
    obtain ⟨zs, hzs⟩ := hpre
    have hhead : (l.dropWhile p).head? = some y := by rw [← hzs]; rfl
    have hy : p y = false := head?_dropWhile_false p l y hhead
    rw [List.dropWhile_cons, hy]
    simp

theorem jsTrimL_idem (l : List Char) : jsTrimL (jsTrimL l) = jsTrimL l := by
  unfold jsTrimL
  rw [dropWhile_rdropWhile_self, List.rdropWhile_idempotent]

theorem jsTrimS_idem (s : String) : jsTrimS (jsTrimS s) = jsTrimS s := by
  unfold jsTrimS
  rw [toList_mk, jsTrimL_idem]

theorem isMetaLine_congr (ct ca a b : String) (h : jsTrimS a = jsTrimS b) :
    isMetaLine ct ca a = isMetaLine ct ca b := by
  simp only [isMetaLine, h]

theorem isMetaLine_empty (ct ca : String) : isMetaLine ct ca "" = true := by
  have h0 : jsTrimS "" = "" := rfl
  simp only [isMetaLine, h0]
  simp

theorem isMetaLine_false_trim (ct ca l : String) (h : isMetaLine ct ca l = false) :
    jsTrimS l ≠ "" := by
  intro hcon
  have hc : isMetaLine ct ca l = isMetaLine ct ca "" :=
    isMetaLine_congr ct ca l "" (by rw [hcon]; rfl)
  rw [hc, isMetaLine_empty] at h
  exact absurd h (by simp)

theorem takeWhile_append_all (p : Char → Bool) (x y : List Char)
    (hall : ∀ a ∈ x, p a = true) : (x ++ y).takeWhile p = x ++ y.takeWhile p := by
  induction x with
  | nil => rfl
  | cons a as ih =>
    have ha : p a = true := hall a (List.mem_cons_self _ _)
    rw [List.cons_append, List.takeWhile_cons, ha]
    simp only [if_pos]
    rw [ih (fun b hb => hall b (List.mem_cons.2 (Or.inr hb)))]
    simp

theorem takeWhile_all (p : Char → Bool) (l : List Char)
    (hall : ∀ a ∈ l, p a = true) : l.takeWhile p = l := by
  induction l with
  | nil => rfl
  | cons a as ih =>
    rw [List.takeWhile_cons, hall a (List.mem_cons_self _ _)]
    simp only [if_pos]
    rw [ih (fun b hb => hall b (List.mem_cons.2 (Or.inr hb)))]

theorem rdropWhile_append_eq (p : Char → Bool) (x y : List Char) :
    (x ++ y).rdropWhile p =
      if y.rdropWhile p = [] then x.rdropWhile p else x ++ y.rdropWhile p := by
  by_cases hy : y.rdropWhile p = []
  · rw [if_pos hy]
    have hy' : y.reverse.dropWhile p = [] := by
      have h1 := congrArg List.reverse hy
      simpa [List.rdropWhile] using h1
    simp [List.rdropWhile, List.reverse_append, List.dropWhile_append, hy']
  · rw [if_neg hy]
    have hy' : ¬ (y.reverse.dropWhile p).isEmpty = true := by
      intro hcon
      apply hy
      simp only [List.isEmpty_iff] at hcon
      simp [List.rdropWhile, hcon]
    simp [List.rdropWhile, List.reverse_append, List.dropWhile_append, hy']

theorem trim_firstline_single (A : List Char) (hA : '\n' ∉ A) :
    jsTrimL ((jsTrimL A).takeWhile (neChar '\n')) = jsTrimL A := by
  rw [takeWhile_all _ _ (fun a ha => by
    simp only [neChar, decide_eq_true_eq]
    intro hcon
    exact hA (hcon ▸ jsTrimL_subset A a ha))]
  exact jsTrimL_idem A

theorem trim_firstline (A R : List Char) (hA : '\n' ∉ A) (hA0 : jsTrimL A ≠ []) :
    jsTrimL ((jsTrimL (A ++ '\n' :: R)).takeWhile (neChar '\n')) = jsTrimL A := by
  have hA' : A.dropWhile isWsChar ≠ [] := by
    intro hcon
    apply hA0
    unfold jsTrimL
    rw [hcon]
    rfl
  have hAsub : ∀ a ∈ A.dropWhile isWsChar, a ∈ A :=
    fun a ha => (List.dropWhile_sublist _).subset ha
  have hdw : (A ++ '\n' :: R).dropWhile isWsChar = A.dropWhile isWsChar ++ '\n' :: R := by
    rw [List.dropWhile_append, if_neg (by simp [hA'])]
  unfold jsTrimL
  rw [hdw, rdropWhile_append_eq]
  by_cases hr : ('\n' :: R).rdropWhile isWsChar = []
  · rw [if_pos hr]
    rw [takeWhile_all _ _ (fun a ha => by
      simp only [neChar, decide_eq_true_eq]
      intro hcon
      exact hA (hcon ▸ hAsub a ((List.rdropWhile_prefix _ _).sublist.subset ha)))]
    rw [dropWhile_rdropWhile_self, List.rdropWhile_idempotent]
  · rw [if_neg hr]
    obtain ⟨z, zs, hz⟩ : ∃ z zs, ('\n' :: R).rdropWhile isWsChar = z :: zs := by
      cases hc : ('\n' :: R).rdropWhile isWsChar with
      | nil => exact absurd hc hr
      | cons z zs => exact ⟨z, zs, rfl⟩
    have hzn : z = '\n' := by
      have hpre := List.rdropWhile_prefix isWsChar ('\n' :: R)
      rw [hz] at hpre
      obtain ⟨w, hw⟩ := hpre
      have h2 := congrArg List.head? hw
      simpa using h2
    rw [hz, hzn]
    rw [takeWhile_append_all _ _ _ (fun a ha => by
      simp only [neChar, decide_eq_true_eq]
      intro hcon
      exact hA (hcon ▸ hAsub a ha))]
    rw [show ('\n' :: zs).takeWhile (neChar '\n') = [] from by
      simp [List.takeWhile_cons, neChar]]
    rw [List.append_nil, List.dropWhile_idempotent]

theorem metaCount_stop (ct ca : String) (fuel : Nat) :
    ∀ (ls : List String), ls.length ≤ fuel →
      ls.drop (metaCount ct ca fuel ls) = [] ∨
      ∃ x t, ls.drop (metaCount ct ca fuel ls) = x :: t ∧ isMetaLine ct ca x = false := by
  induction fuel with
  | zero =>
    intro ls h
    have h0 : ls = [] := List.length_eq_zero.mp (Nat.le_zero.mp h)
    subst h0
    left
    rfl
  | succ f ih =>
    intro ls h
    cases ls with
    | nil => left; rfl
    | cons l rest =>
      by_cases hm : isMetaLine ct ca l = true
      · have hstep : metaCount ct ca (f + 1) (l :: rest) = metaCount ct ca f rest + 1 := by
          simp [metaCount, hm]
        rw [hstep, List.drop_succ_cons]
        exact ih rest (by simp [List.length_cons] at h; omega)
      · have hm' : isMetaLine ct ca l = false := by simpa using hm
        have hstep : metaCount ct ca (f + 1) (l :: rest) = 0 := by
          simp [metaCount, hm']
        rw [hstep]
        right
        exact ⟨l, rest, rfl, hm'⟩

theorem strip_unfold (body title author : String) :
    stripArticleMetadataPrefix body title author =
      jsTrimS (joinNl ((splitNl body).drop
        (metaCount (jsTrimS title) (jsTrimS ((splitNl author).headD "")) 25 (splitNl body)))) := by
  simp only [stripArticleMetadataPrefix]

theorem strip_clean (body title author : String)
    (hfl : isMetaLine (jsTrimS title) (jsTrimS ((splitNl author).headD ""))
      ((splitNl body).headD "") = false) :
    stripArticleMetadataPrefix body title author = jsTrimS body := by
  obtain ⟨hd, t, ht, hhd⟩ := splitNl_cons body
  rw [hhd] at hfl
  rw [strip_unfold, ht]
  have hstep : metaCount (jsTrimS title) (jsTrimS ((splitNl author).headD "")) 25 (hd :: t)
      = if isMetaLine (jsTrimS title) (jsTrimS ((splitNl author).headD "")) hd
          then metaCount (jsTrimS title) (jsTrimS ((splitNl author).headD "")) 24 t + 1
          else 0 := rfl
  rw [hstep, hfl]
  simp only [Bool.false_eq_true, if_false, List.drop_zero]
  rw [← ht, joinNl_splitNl]

theorem strip_empty (title author : String) :
    stripArticleMetadataPrefix "" title author = "" := by
  rw [strip_unfold]
  rw [show splitNl "" = [""] from rfl]
  have hstep : metaCount (jsTrimS title) (jsTrimS ((splitNl author).headD "")) 25 [""]
      = if isMetaLine (jsTrimS title) (jsTrimS ((splitNl author).headD "")) ""
          then metaCount (jsTrimS title) (jsTrimS ((splitNl author).headD "")) 24 [] + 1
          else 0 := rfl
  rw [hstep, isMetaLine_empty]
  simp only [if_pos]
  rw [show metaCount (jsTrimS title) (jsTrimS ((splitNl author).headD "")) 24 ([] : List String)
      = 0 from rfl]
  rfl

theorem firstline_trim_eq (x : String) (ts : List String) (hxnl : '\n' ∉ x.toList)
    (hxne : jsTrimL x.toList ≠ []) :
    jsTrimS ⟨(jsTrimS (joinNl (x :: ts))).toList.takeWhile (neChar '\n')⟩ = jsTrimS x := by
  cases ts with
  | nil =>
    have hj : joinNl [x] = x := by
      unfold joinNl
      rw [show ([x].map String.toList) = [x.toList] from rfl]
      rw [show joinCharL '\n' [x.toList] = x.toList from rfl]
      exact mk_toList x
    rw [hj]
    exact congrArg String.mk (by
      rw [show (jsTrimS x).toList = jsTrimL x.toList from rfl]
      exact trim_firstline_single x.toList hxnl)
  | cons y ys =>
    exact congrArg String.mk (by
      rw [show (jsTrimS (joinNl (x :: y :: ys))).toList
          = jsTrimL ((joinNl (x :: y :: ys)).toList) from rfl]
      rw [show (joinNl (x :: y :: ys)).toList
          = x.toList ++ '\n' :: joinCharL '\n' ((y :: ys).map String.toList) from rfl]
      exact trim_firstline x.toList (joinCharL '\n' ((y :: ys).map String.toList)) hxnl hxne)

theorem strip_idem_le25 (body title author : String)
    (h25 : (splitNl body).length ≤ 25) :
    stripArticleMetadataPrefix (stripArticleMetadataPrefix body title author) title author
      = stripArticleMetadataPrefix body title author := by
  rcases metaCount_stop (jsTrimS title) (jsTrimS ((splitNl author).headD "")) 25
      (splitNl body) h25 with hdrop | ⟨x, t, hdrop, hx⟩
  · rw [strip_unfold body, hdrop]
    rw [show jsTrimS (joinNl []) = "" from rfl]
    exact strip_empty title author
  · rw [strip_unfold body, hdrop]
    have hxmem : x ∈ splitNl body := by
      have hm : x ∈ (splitNl body).drop
          (metaCount (jsTrimS title) (jsTrimS ((splitNl author).headD "")) 25 (splitNl body)) := by
        rw [hdrop]
        exact List.mem_cons_self _ _
      exact List.drop_subset _ _ hm
    have hxnl : '\n' ∉ x.toList := by
      unfold splitNl at hxmem
      obtain ⟨seg, hseg, hxeq⟩ := List.mem_map.1 hxmem
      subst hxeq
      exact splitCharL_no_sep '\n' body.toList seg hseg
    have hxne : jsTrimL x.toList ≠ [] := by
      have hne := isMetaLine_false_trim _ _ _ hx
      intro hcon
      apply hne
      unfold jsTrimS
      rw [hcon]
    have hfl2 : isMetaLine (jsTrimS title) (jsTrimS ((splitNl author).headD ""))
        ((splitNl (jsTrimS (joinNl (x :: t)))).headD "") = false := by
      rw [splitNl_headD (jsTrimS (joinNl (x :: t)))]
      rw [isMetaLine_congr _ _ _ x (firstline_trim_eq x t hxnl hxne)]
      exact hx
    calc stripArticleMetadataPrefix (jsTrimS (joinNl (x :: t))) title author
        = jsTrimS (jsTrimS (joinNl (x :: t))) := strip_clean _ title author hfl2
      _ = jsTrimS (joinNl (x :: t)) := jsTrimS_idem _

/-- C7 (amended): `stripArticleMetadataPrefix` is idempotent for every body
whose line count does not exceed the 25-line scan window, and stripping
already-trimmed content whose first line matches no metadata pattern returns
it unchanged.  The unrestricted idempotence of the original claim is false
(`c7_strip_cex`). -/
theorem c7_strip_amended (body title author : String) :
    ((splitNl body).length ≤ 25 →
      stripArticleMetadataPrefix (stripArticleMetadataPrefix body title author) title author
        = stripArticleMetadataPrefix body title author) ∧
    (jsTrimS body = body →
      isMetaLine (jsTrimS title) (jsTrimS ((splitNl author).headD ""))
        ((splitNl body).headD "") = false →
      stripArticleMetadataPrefix body title author = body) :=
  ⟨strip_idem_le25 body title author,
   fun h1 h2 => (strip_clean body title author h2).trans h1⟩

/-- C7 counterexample: a body carrying more metadata lines than the 25-line
scan window is stripped differently by a second application, refuting the
unrestricted idempotence claim. -/
theorem c7_strip_cex :
    stripArticleMetadataPrefix (stripArticleMetadataPrefix c7Body "" "") "" ""
      ≠ stripArticleMetadataPrefix c7Body "" "" := by decide

/-- Witness for C7: concrete instantiations discharging both hypotheses of
the amended theorem. -/
theorem c7_strip_amended_witness :
    (stripArticleMetadataPrefix (stripArticleMetadataPrefix "@abc\nhello" "t" "a") "t" "a"
      = stripArticleMetadataPrefix "@abc\nhello" "t" "a") ∧
    (stripArticleMetadataPrefix "Actual content" "t" "a" = "Actual content") :=
  ⟨(c7_strip_amended "@abc\nhello" "t" "a").1 (by decide),
   (c7_strip_amended "Actual content" "t" "a").2 (by decide) (by decide)⟩
